import Mathlib

/-!
# Medicine record store of `main.c`: embedding and verification

The medicine part of `main.c` keeps a singly linked list `medHead` of `Medicine`
records, a pipe-separated text file, a date comparator and a status rule.  The
embedding below follows the C functions one by one:

* a C string is the list of its bytes before the terminating NUL (`CStr`);
* the linked list `medHead` is a `List Medicine`, head first;
* `int` values are integers, and the result of an `int` subtraction or of a `%d`
  conversion is reduced to 32 bits with `toInt32`;
* `fscanf`/`sscanf` read from a list of characters and return the converted values
  together with the unread rest of the input, or `none` when the call would not
  report the full number of conversions;
* the C library calls `mktime` and `time` are parameters (`Clock`);
* the file `medicines.txt` is the list of characters written by `saveMedicines`.
-/

namespace MedicineTracker

/-! ## Data model -/

/-- A C string: the bytes before the terminating NUL, one `Char` per byte. -/
abbrev CStr := List Char

/-- The `Medicine` struct of `main.c` without its `next` pointer. -/
structure Medicine where
  batchNumber : CStr
  brandName : CStr
  genericName : CStr
  manufacturer : CStr
  manufacturedDate : CStr
  expiryDate : CStr
  quantity : Int
  status : CStr
deriving DecidableEq

/-- Reduction of an integer to the range of a 32-bit `int` (two's complement). -/
def toInt32 (v : Int) : Int := (v + 2147483648) % 4294967296 - 2147483648

/-- Saturation to the range of a 64-bit `long`, as `strtol` does inside `%d`. -/
def clampLong (v : Int) : Int :=
  if v < -9223372036854775808 then -9223372036854775808
  else if 9223372036854775807 < v then 9223372036854775807
  else v

/-! ## The C library pieces used by the program -/

/-- The `isspace` test of the C locale: space, `\t`, `\n`, `\v`, `\f`, `\r`. -/
def isspace (c : Char) : Bool :=
  c.toNat = 32 || (9 ≤ c.toNat && c.toNat ≤ 13)

/-- The `isdigit` test: `0` to `9`. -/
def isdigit (c : Char) : Bool :=
  48 ≤ c.toNat && c.toNat ≤ 57

/-- Skipping of white space, done by `%d` and by a white-space directive. -/
def skipSpace (s : CStr) : CStr := s.dropWhile isspace

/-- Value of a run of decimal digits. -/
def digitsValue (ds : List Char) : Nat :=
  ds.foldl (fun a c => 10 * a + (c.toNat - 48)) 0

/-- Optional sign in front of the digits of `%d`. -/
def scanSign : CStr → Bool × CStr
  | [] => (false, [])
  | c :: t => if c = '-' then (true, t) else if c = '+' then (false, t) else (false, c :: t)

/-- The conversion `%d`: skip white space, read an optional sign and the longest run of
digits (at least one), store the value as an `int`.  Returns the value and the unread
input, `none` on a matching failure or at the end of the input. -/
def scanInt (s : CStr) : Option (Int × CStr) :=
  let p := scanSign (skipSpace s)
  let ds := p.2.takeWhile isdigit
  if ds = [] then none
  else
    let v : Int := if p.1 then -(digitsValue ds : Int) else (digitsValue ds : Int)
    some (toInt32 (clampLong v), p.2.dropWhile isdigit)

/-- The conversion `%w[^c]`: the longest run of at most `width` characters different from
`stop`, at least one; white space is not skipped. -/
def scanSet (width : Nat) (stop : Char) (s : CStr) : Option (CStr × CStr) :=
  let fld := (s.take width).takeWhile (fun c => c ≠ stop)
  if fld = [] then none else some (fld, s.drop fld.length)

/-- A literal character of a format string: the next input character must be it. -/
def matchLit (c : Char) : CStr → Option CStr
  | [] => none
  | x :: t => if x = c then some t else none

/-- The library function `strcmp`, bytes compared as unsigned values.  C fixes only the sign of the
result; the model returns `-1`, `0` or `1`. -/
def strcmp : CStr → CStr → Int
  | [], [] => 0
  | [], _ :: _ => -1
  | _ :: _, [] => 1
  | a :: s, b :: t =>
    if a = b then strcmp s t else if a.toNat < b.toNat then -1 else 1

/-- The conversion `%d` of `fprintf`. -/
def printInt (q : Int) : CStr :=
  if q < 0 then '-' :: Nat.toDigits 10 q.natAbs else Nat.toDigits 10 q.natAbs

/-- The wall clock: `mktime` applied to a `struct tm` whose fields are zero except
`tm_year`, `tm_mon`, `tm_mday`, and the value of `time(NULL)`. -/
structure Clock where
  mktime : Int → Int → Int → Int
  now : Int

/-! ## Date comparator -/

/-- The call `sscanf(d, "%d-%d-%d", &y, &m, &day)`: the three values when it returns 3. -/
def sscanfDate (d : CStr) : Option (Int × Int × Int) :=
  match scanInt d with
  | none => none
  | some y =>
  match matchLit '-' y.2 with
  | none => none
  | some s =>
  match scanInt s with
  | none => none
  | some m =>
  match matchLit '-' m.2 with
  | none => none
  | some s =>
  match scanInt s with
  | none => none
  | some day => some (y.1, m.1, day.1)

/-- The function `compareDate` of `main.c`. -/
def compareDate (d1 d2 : CStr) : Int :=
  match sscanfDate d1 with
  | none => strcmp d1 d2
  | some (y1, m1, day1) =>
    match sscanfDate d2 with
    | none => strcmp d1 d2
    | some (y2, m2, day2) =>
      if y1 ≠ y2 then toInt32 (y1 - y2)
      else if m1 ≠ m2 then toInt32 (m1 - m2)
      else toInt32 (day1 - day2)

/-! ## Sorted insertion and the full re-sort -/

/-- The `while` loop of `sortedInsertByExpiry`: `l` is the list after `cur`; the walk goes on
while the next node is not later than `newNode`, then `newNode` is linked in. -/
def insertAfter (newNode : Medicine) : List Medicine → List Medicine
  | [] => [newNode]
  | x :: rest =>
    if compareDate x.expiryDate newNode.expiryDate ≤ 0 then x :: insertAfter newNode rest
    else newNode :: x :: rest

/-- The function `sortedInsertByExpiry` of `main.c`. -/
def sortedInsertByExpiry (head : List Medicine) (newNode : Medicine) : List Medicine :=
  match head with
  | [] => [newNode]
  | h :: t =>
    if compareDate newNode.expiryDate h.expiryDate < 0 then newNode :: h :: t
    else h :: insertAfter newNode t

/-- The function `sortMedicinesByExpiry` of `main.c`: the nodes are taken from the head on and
inserted one by one into the list `sorted`, which starts empty. -/
def sortMedicinesByExpiry (medHead : List Medicine) : List Medicine :=
  medHead.foldl sortedInsertByExpiry []

/-! ## Status rule -/

def EXPIRED : CStr := "EXPIRED".toList
def NEAR_EXPIRY : CStr := "NEAR EXPIRY".toList
def OUT_OF_STOCK : CStr := "OUT OF STOCK".toList
def LOW_STOCK : CStr := "LOW STOCK".toList
def IN_STOCK : CStr := "IN STOCK".toList

/-- The status that `updateExpiryAndStockStatus` stores, as a function of the two fields it
reads.  `secs` is `difftime(exp_time, now)`, a whole number of seconds, and the program tests
`days = secs / (60.0*60.0*24.0)`: `days < 0.0` holds exactly when `secs < 0`, and
`days <= 30.0` exactly when `secs ≤ 30 * (60*60*24)`; `days` is not truncated. -/
def deriveStatus (clk : Clock) (expiryDate : CStr) (quantity : Int) : CStr :=
  let stock : CStr :=
    if quantity ≤ 0 then OUT_OF_STOCK
    else if quantity ≤ 10 then LOW_STOCK
    else IN_STOCK
  match sscanfDate expiryDate with
  | some (y, mon, day) =>
    let exp_time := clk.mktime (toInt32 (y - 1900)) (toInt32 (mon - 1)) day
    let secs : Int := exp_time - clk.now
    if secs < 0 then EXPIRED
    else if secs ≤ 30 * (60 * 60 * 24) then NEAR_EXPIRY
    else stock
  | none => stock

/-- The function `updateExpiryAndStockStatus` of `main.c`. -/
def updateExpiryAndStockStatus (clk : Clock) (m : Medicine) : Medicine :=
  { m with status := deriveStatus clk m.expiryDate m.quantity }

/-! ## Persistence -/

/-- One `fprintf` of `saveMedicines`: `"%s|%s|%s|%s|%s|%s|%d|%s\n"`. -/
def printLine (t : Medicine) : CStr :=
  t.batchNumber ++ '|' :: (t.brandName ++ '|' :: (t.genericName ++ '|' :: (t.manufacturer ++
    '|' :: (t.manufacturedDate ++ '|' :: (t.expiryDate ++ '|' :: (printInt t.quantity ++
    '|' :: (t.status ++ ['\n'])))))))

/-- The function `saveMedicines` of `main.c`: the contents of the file after the call. -/
def saveMedicines : List Medicine → CStr
  | [] => []
  | t :: rest => printLine t ++ saveMedicines rest

/-- The `fscanf` call of `loadMedicines` with the format
`"%31[^|]|%63[^|]|%63[^|]|%63[^|]|%15[^|]|%15[^|]|%d|%23[^\n]\n"`: the record and the unread
input when the call returns 8, `none` otherwise. -/
def fscanfMedicine (s : CStr) : Option (Medicine × CStr) :=
  match scanSet 31 '|' s with
  | none => none
  | some batch =>
  match matchLit '|' batch.2 with
  | none => none
  | some s =>
  match scanSet 63 '|' s with
  | none => none
  | some brand =>
  match matchLit '|' brand.2 with
  | none => none
  | some s =>
  match scanSet 63 '|' s with
  | none => none
  | some generic =>
  match matchLit '|' generic.2 with
  | none => none
  | some s =>
  match scanSet 63 '|' s with
  | none => none
  | some manu =>
  match matchLit '|' manu.2 with
  | none => none
  | some s =>
  match scanSet 15 '|' s with
  | none => none
  | some mfd =>
  match matchLit '|' mfd.2 with
  | none => none
  | some s =>
  match scanSet 15 '|' s with
  | none => none
  | some exp =>
  match matchLit '|' exp.2 with
  | none => none
  | some s =>
  match scanInt s with
  | none => none
  | some q =>
  match matchLit '|' q.2 with
  | none => none
  | some s =>
  match scanSet 23 '\n' s with
  | none => none
  | some st =>
    some (⟨batch.1, brand.1, generic.1, manu.1, mfd.1, exp.1, q.1, st.1⟩, skipSpace st.2)

/-- The `while (1)` loop of `loadMedicines`: every record read is put in front of `medHead`;
the loop ends at the first `fscanf` that does not return 8.  `fuel` bounds the number of
iterations; `none` means the bound was reached. -/
def loadLoop : Nat → CStr → List Medicine → Option (List Medicine)
  | 0, _, _ => none
  | fuel + 1, s, medHead =>
    match fscanfMedicine s with
    | none => some medHead
    | some (m, rest) => loadLoop fuel rest (m :: medHead)

/-- The status pass of `updateAllMedicineStatuses` (the list it leaves in memory). -/
def updateAllMedicineStatuses (clk : Clock) (medHead : List Medicine) : List Medicine :=
  medHead.map (updateExpiryAndStockStatus clk)

/-- The function `loadMedicines` of `main.c`, started with an empty `medHead` on a file with the
contents `file`: the list in memory afterwards.  Every successful `fscanf` consumes input,
so `file.length + 1` iterations are enough. -/
def loadMedicines (clk : Clock) (file : CStr) : Option (List Medicine) :=
  (loadLoop (file.length + 1) file []).map (updateAllMedicineStatuses clk)

/-! ## Record operations -/

/-- The function `searchMedicine` of `main.c`. -/
def searchMedicine (medHead : List Medicine) (batch : CStr) : Option Medicine :=
  medHead.find? (fun t => strcmp t.batchNumber batch == 0)

/-- What an operation prints about its outcome. -/
inductive Report where
  | added
  | batchExists
  | updated
  | deleted
  | notFound
deriving DecidableEq

/-- The function `addMedicine` of `main.c`; `m` holds the values typed in (its `status` is
overwritten).  Returns the report and the new `medHead`. -/
def addMedicine (clk : Clock) (medHead : List Medicine) (m : Medicine) :
    Report × List Medicine :=
  match searchMedicine medHead m.batchNumber with
  | some _ => (Report.batchExists, medHead)
  | none =>
    (Report.added, sortMedicinesByExpiry (updateExpiryAndStockStatus clk m :: medHead))

/-- The quantity and status change of `updateMedicine` on the node found by `searchMedicine`
(the first node with that batch number). -/
def setQuantity (clk : Clock) (batch : CStr) (q : Int) : List Medicine → List Medicine
  | [] => []
  | t :: rest =>
    if strcmp t.batchNumber batch == 0 then
      updateExpiryAndStockStatus clk { t with quantity := q } :: rest
    else t :: setQuantity clk batch q rest

/-- The function `updateMedicine` of `main.c` with the typed-in batch number and quantity. -/
def updateMedicine (clk : Clock) (medHead : List Medicine) (batch : CStr) (q : Int) :
    Report × List Medicine :=
  match searchMedicine medHead batch with
  | none => (Report.notFound, medHead)
  | some _ => (Report.updated, sortMedicinesByExpiry (setQuantity clk batch q medHead))

/-- The unlinking done by `deleteMedicine`: the walk stops at the first node with the batch
number and that node is removed; `none` when the walk reaches the end of the list. -/
def unlinkFirst (batch : CStr) : List Medicine → Option (List Medicine)
  | [] => none
  | t :: rest =>
    if strcmp t.batchNumber batch != 0 then (unlinkFirst batch rest).map (fun l => t :: l)
    else some rest

/-- The function `deleteMedicine` of `main.c` with the typed-in batch number. -/
def deleteMedicine (medHead : List Medicine) (batch : CStr) : Report × List Medicine :=
  match unlinkFirst batch medHead with
  | none => (Report.notFound, medHead)
  | some l => (Report.deleted, l)

/-- The bucket that the `if` chain of `medicineStats` picks for a status string; the last
one is the final `else`, which the program also counts as in stock. -/
inductive Bucket where
  | expired
  | near
  | out
  | low
  | instock
  | unrecognized
deriving DecidableEq

/-- The `strcmp` chain of `medicineStats`. -/
def bucketOf (status : CStr) : Bucket :=
  if strcmp status EXPIRED == 0 then Bucket.expired
  else if strcmp status NEAR_EXPIRY == 0 then Bucket.near
  else if strcmp status OUT_OF_STOCK == 0 then Bucket.out
  else if strcmp status LOW_STOCK == 0 then Bucket.low
  else if strcmp status IN_STOCK == 0 then Bucket.instock
  else Bucket.unrecognized

/-- The counters printed by `medicineStats`. -/
structure Stats where
  total : Nat
  expired : Nat
  near : Nat
  instock : Nat
  low : Nat
  out : Nat
deriving DecidableEq

/-- One pass of the counting loop of `medicineStats`. -/
def countOne (st : Stats) (t : Medicine) : Stats :=
  let st := { st with total := st.total + 1 }
  match bucketOf t.status with
  | Bucket.expired => { st with expired := st.expired + 1 }
  | Bucket.near => { st with near := st.near + 1 }
  | Bucket.out => { st with out := st.out + 1 }
  | Bucket.low => { st with low := st.low + 1 }
  | Bucket.instock => { st with instock := st.instock + 1 }
  | Bucket.unrecognized => { st with instock := st.instock + 1 }

/-- The function `medicineStats` of `main.c`: the statuses are recomputed, then counted. -/
def medicineStats (clk : Clock) (medHead : List Medicine) : Stats :=
  (updateAllMedicineStatuses clk medHead).foldl countOne ⟨0, 0, 0, 0, 0, 0⟩

/-! ## Sequences of operations -/

/-- One mutating call of the menu, with the clock at the time of the call and the values
typed in. -/
inductive Op where
  | add (clk : Clock) (m : Medicine)
  | update (clk : Clock) (batch : CStr) (q : Int)
  | delete (batch : CStr)

/-- The list `medHead` after one operation. -/
def applyOp (medHead : List Medicine) : Op → List Medicine
  | Op.add clk m => (addMedicine clk medHead m).2
  | Op.update clk batch q => (updateMedicine clk medHead batch q).2
  | Op.delete batch => (deleteMedicine medHead batch).2

/-- The list `medHead` after a sequence of operations. -/
def runOps (medHead : List Medicine) (ops : List Op) : List Medicine :=
  ops.foldl applyOp medHead

/-! ## Predicates used in the statements -/

/-- A date string of the form `YYYY-MM-DD`: four digits, `-`, two digits, `-`, two digits. -/
def isYMD (d : CStr) : Bool :=
  match d with
  | [a, b, c, e, h1, f, g, h2, i, j] =>
    isdigit a && isdigit b && isdigit c && isdigit e && h1 == '-' &&
    isdigit f && isdigit g && h2 == '-' && isdigit i && isdigit j
  | _ => false

/-- The listing is non-decreasing by expiry date under `compareDate`: no record is followed
by one that compares less. -/
def nonDecreasing : List Medicine → Bool
  | [] => true
  | [_] => true
  | a :: b :: rest =>
    decide (compareDate a.expiryDate b.expiryDate ≤ 0) && nonDecreasing (b :: rest)

/-- A string field that the file format can carry: not empty, without the delimiter and
without a newline, and not longer than the capacity of its array. -/
def fieldOK (cap : Nat) (s : CStr) : Prop :=
  s ≠ [] ∧ '|' ∉ s ∧ '\n' ∉ s ∧ s.length ≤ cap

instance (cap : Nat) (s : CStr) : Decidable (fieldOK cap s) := by
  unfold fieldOK; infer_instance

/-- A record whose fields respect the declared lengths and the delimiter rule, with a
quantity in the range of `int`. -/
def recordOK (r : Medicine) : Prop :=
  fieldOK 31 r.batchNumber ∧ fieldOK 63 r.brandName ∧ fieldOK 63 r.genericName ∧
  fieldOK 63 r.manufacturer ∧ fieldOK 15 r.manufacturedDate ∧ fieldOK 15 r.expiryDate ∧
  fieldOK 23 r.status ∧ -2147483648 ≤ r.quantity ∧ r.quantity ≤ 2147483647

instance (r : Medicine) : Decidable (recordOK r) := by
  unfold recordOK; infer_instance

/-- A date string that `sscanf` parses into three integers of magnitude below `2^30`, so that
no subtraction in `compareDate` overflows. -/
def smallDate (d : CStr) : Prop :=
  ∃ y m dd, sscanfDate d = some (y, m, dd) ∧
    -1073741824 ≤ y ∧ y < 1073741824 ∧ -1073741824 ≤ m ∧ m < 1073741824 ∧
    -1073741824 ≤ dd ∧ dd < 1073741824

/-- The parsed triple as one integer that orders like the triple. -/
def dateKey (d : CStr) : Int :=
  match sscanfDate d with
  | some (y, m, dd) => y * 18446744073709551616 + m * 4294967296 + dd
  | none => 0

/-- A record that a line of the file carries as it is: `recordOK`, and a batch number that
does not start with white space (the white-space directive that ends the format of the
previous `fscanf` would skip it). -/
def lineOK (r : Medicine) : Prop :=
  recordOK r ∧ skipSpace r.batchNumber = r.batchNumber

instance (r : Medicine) : Decidable (lineOK r) := by
  unfold lineOK; infer_instance

/-- The listing is sorted by the integer keys of its expiry dates (every record against every
later one). -/
def keySorted (l : List Medicine) : Prop :=
  List.Pairwise (fun a b : Medicine => dateKey a.expiryDate ≤ dateKey b.expiryDate) l

/-- Every record of the listing has an expiry date that parses into small integers. -/
def smallDates (l : List Medicine) : Prop :=
  ∀ e ∈ l, smallDate e.expiryDate

/-- Every record of the listing has an expiry date of the form `YYYY-MM-DD`. -/
def allYMD (l : List Medicine) : Prop :=
  ∀ e ∈ l, isYMD e.expiryDate = true

instance (l : List Medicine) : Decidable (allYMD l) := by
  unfold allYMD; infer_instance

/-- The operation adds only records whose expiry date has the form `YYYY-MM-DD` (updates and
deletes change no date). -/
def opYMD : Op → Bool
  | Op.add _ m => isYMD m.expiryDate
  | Op.update _ _ _ => true
  | Op.delete _ => true

/-- The expiry instant that the status rule compares with `now`: `mktime` of the parsed
date, when the date parses as three integers. -/
def expiryInstant (clk : Clock) (expiryDate : CStr) : Option Int :=
  match sscanfDate expiryDate with
  | some (y, mon, day) => some (clk.mktime (toInt32 (y - 1900)) (toInt32 (mon - 1)) day)
  | none => none

/-- The store after a sequence of `addMedicine` calls, each with its clock and typed-in
record. -/
def addAll (store : List Medicine) (adds : List (Clock × Medicine)) : List Medicine :=
  adds.foldl (fun s p => (addMedicine p.1 s p.2).2) store

/-- A field as it stands between two delimiters of a line: not empty and without `|`. -/
def fieldText (s : CStr) : Prop := s ≠ [] ∧ '|' ∉ s

instance (s : CStr) : Decidable (fieldText s) := by
  unfold fieldText; infer_instance

/-- A record whose line has 8 fields and in which one of the six string fields in front of
the quantity is longer than the capacity of its array. -/
def overlongRecord (r : Medicine) : Prop :=
  fieldText r.batchNumber ∧ fieldText r.brandName ∧ fieldText r.genericName ∧
  fieldText r.manufacturer ∧ fieldText r.manufacturedDate ∧ fieldText r.expiryDate ∧
  (31 < r.batchNumber.length ∨ 63 < r.brandName.length ∨ 63 < r.genericName.length ∨
    63 < r.manufacturer.length ∨ 15 < r.manufacturedDate.length ∨ 15 < r.expiryDate.length)

instance (r : Medicine) : Decidable (overlongRecord r) := by
  unfold overlongRecord; infer_instance

/-- A record that is well-formed except that its status is longer than 23 characters. -/
def overlongStatus (r : Medicine) : Prop :=
  fieldOK 31 r.batchNumber ∧ fieldOK 63 r.brandName ∧ fieldOK 63 r.genericName ∧
  fieldOK 63 r.manufacturer ∧ fieldOK 15 r.manufacturedDate ∧ fieldOK 15 r.expiryDate ∧
  '\n' ∉ r.status ∧ 23 < r.status.length ∧
  -2147483648 ≤ r.quantity ∧ r.quantity ≤ 2147483647

instance (r : Medicine) : Decidable (overlongStatus r) := by
  unfold overlongStatus; infer_instance

/-- Two records that agree in every field except, possibly, the status. -/
def sameButStatus (a b : Medicine) : Prop :=
  a.batchNumber = b.batchNumber ∧ a.brandName = b.brandName ∧
  a.genericName = b.genericName ∧ a.manufacturer = b.manufacturer ∧
  a.manufacturedDate = b.manufacturedDate ∧ a.expiryDate = b.expiryDate ∧
  a.quantity = b.quantity

instance (a b : Medicine) : Decidable (sameButStatus a b) := by
  unfold sameButStatus; infer_instance

/-- A status that the last conversion `%23[^\n]` reads back whole: not empty, without a
newline, at most 23 characters (a `|` is allowed). -/
def statusOK (s : CStr) : Prop := s ≠ [] ∧ '\n' ∉ s ∧ s.length ≤ 23

instance (s : CStr) : Decidable (statusOK s) := by
  unfold statusOK; infer_instance

/-- A record whose line is read back by the scan pattern: like `recordOK`, but the status
has to meet `statusOK` only. -/
def scanOK (r : Medicine) : Prop :=
  fieldOK 31 r.batchNumber ∧ fieldOK 63 r.brandName ∧ fieldOK 63 r.genericName ∧
  fieldOK 63 r.manufacturer ∧ fieldOK 15 r.manufacturedDate ∧ fieldOK 15 r.expiryDate ∧
  statusOK r.status ∧ -2147483648 ≤ r.quantity ∧ r.quantity ≤ 2147483647

instance (r : Medicine) : Decidable (scanOK r) := by
  unfold scanOK; infer_instance

/-- A record with `scanOK` whose batch number does not start with white space. -/
def lineScanOK (r : Medicine) : Prop :=
  scanOK r ∧ skipSpace r.batchNumber = r.batchNumber

instance (r : Medicine) : Decidable (lineScanOK r) := by
  unfold lineScanOK; infer_instance

/-! ## Sample data -/

/-- A clock whose `mktime` counts 372 days per year and 31 per month from 1900, in seconds. -/
def sampleClock (now : Int) : Clock :=
  ⟨fun y m d => (y * 372 + m * 31 + d) * 86400, now⟩

/-- A record with the given batch number, expiry date and quantity. -/
def sampleMed (b e : String) (q : Int) : Medicine :=
  ⟨b.toList, "Brand".toList, "Gen".toList, "Maker".toList, "2020-01-01".toList, e.toList, q,
   "IN STOCK".toList⟩

/-- The store of the scenario: `B1` (expiry 2099-01-01, quantity 3) is added, then `B2`
(expiry 2030-05-05, quantity 20), at a time far before both dates. -/
def sampleStore : List Medicine :=
  runOps [] [Op.add (sampleClock 0) (sampleMed "B1" "2099-01-01" 3),
    Op.add (sampleClock 0) (sampleMed "B2" "2030-05-05" 20)]

/-- The instant that `sampleClock` gives to 2024-01-05. -/
def sampleInstant : Int := (124 * 372 + 0 * 31 + 5) * 86400

/-- A file of two well-formed lines followed by a line with nine `|`-separated fields and a
further well-formed line. -/
def fileNineFields : CStr :=
  saveMedicines [sampleMed "B1" "2099-01-01" 3, sampleMed "B2" "2030-05-05" 20] ++
  "B3|Brand|Gen|Maker|2020-01-01|2031-01-01|7|IN STOCK|extra\n".toList ++
  saveMedicines [sampleMed "B4" "2032-02-02" 8]

/-- A file of two well-formed lines followed by a line with five fields and a further line
with four fields. -/
def fileFiveFields : CStr :=
  saveMedicines [sampleMed "B1" "2099-01-01" 3, sampleMed "B2" "2030-05-05" 20] ++
  "B3|Brand|Gen|Maker|2020-01-01\n".toList ++ "X|2031-01-01|7|IN STOCK\n".toList

/-- A file of two well-formed lines followed by a last line with three fields. -/
def fileThreeFields : CStr :=
  saveMedicines [sampleMed "B1" "2099-01-01" 3, sampleMed "B2" "2030-05-05" 20] ++
  "B3|Brand|Gen\n".toList

/-- A record with a batch number of 40 characters. -/
def longBatchMed : Medicine :=
  { sampleMed "B3" "2031-01-01" 7 with
    batchNumber := "BATCH-0123456789-0123456789-0123456789-X".toList }

/-- A file of a well-formed line, a line with a batch number of 40 characters and a further
well-formed line. -/
def fileLongBatch : CStr :=
  saveMedicines [sampleMed "B1" "2099-01-01" 3, longBatchMed, sampleMed "B4" "2032-02-02" 8]

/-- A file in which two well-formed lines carry the batch number `B1`. -/
def fileTwiceB1 : CStr :=
  saveMedicines [sampleMed "B1" "2099-01-01" 3, sampleMed "B1" "2030-05-05" 20]

/-- Three records whose expiry dates are `2024-0x` (does not parse), `2024-1-1` and
`2024-01-01` (the same day, written differently), in this order. -/
def mixedDates : List Medicine :=
  [sampleMed "Y" "2024-0x" 1, sampleMed "E" "2024-1-1" 2, sampleMed "X" "2024-01-01" 3]

/-! ## Integers and characters -/

theorem toInt32_of_int {v : Int} (h1 : -2147483648 ≤ v) (h2 : v ≤ 2147483647) :
    toInt32 v = v := by
  unfold toInt32; omega

theorem clampLong_of_int {v : Int} (h1 : -2147483648 ≤ v) (h2 : v ≤ 2147483647) :
    clampLong v = v := by
  unfold clampLong
  rw [if_neg (by omega), if_neg (by omega)]

theorem isdigit_iff (c : Char) : isdigit c = true ↔ 48 ≤ c.toNat ∧ c.toNat ≤ 57 := by
  simp [isdigit]

theorem isspace_of_isdigit {c : Char} (h : isdigit c = true) : isspace c = false := by
  rw [isdigit_iff] at h
  simp only [isspace, Bool.or_eq_false_iff, Bool.and_eq_false_iff, decide_eq_false_iff_not]
  omega

theorem ne_of_toNat_ne {c d : Char} (h : c.toNat ≠ d.toNat) : c ≠ d := by
  intro e; exact h (by rw [e])

theorem isdigit_ne_minus {c : Char} (h : isdigit c = true) : c ≠ '-' := by
  rw [isdigit_iff] at h
  apply ne_of_toNat_ne
  have : ('-' : Char).toNat = 45 := by decide
  omega

theorem isdigit_ne_plus {c : Char} (h : isdigit c = true) : c ≠ '+' := by
  rw [isdigit_iff] at h
  apply ne_of_toNat_ne
  have : ('+' : Char).toNat = 43 := by decide
  omega

theorem isdigit_bar : isdigit '|' = false := by decide

theorem isdigit_minus : isdigit '-' = false := by decide

/-! ## Prefixes cut by `takeWhile` and `dropWhile` -/

theorem takeWhile_append_stop {p : Char → Bool} (f X : CStr) (hf : ∀ c ∈ f, p c = true)
    (hX : ∀ c, X.head? = some c → p c = false) : (f ++ X).takeWhile p = f := by
  induction f with
  | nil =>
    cases X with
    | nil => rfl
    | cons x t => simp [List.takeWhile, hX x (by simp)]
  | cons a f ih =>
    have ha : p a = true := hf a (by simp)
    simp only [List.cons_append, List.takeWhile_cons, ha, if_true]
    rw [ih (fun c hc => hf c (by simp [hc]))]

theorem dropWhile_append_stop {p : Char → Bool} (f X : CStr) (hf : ∀ c ∈ f, p c = true)
    (hX : ∀ c, X.head? = some c → p c = false) : (f ++ X).dropWhile p = X := by
  induction f with
  | nil =>
    cases X with
    | nil => rfl
    | cons x t => simp [List.dropWhile, hX x (by simp)]
  | cons a f ih =>
    have ha : p a = true := hf a (by simp)
    simp only [List.cons_append, List.dropWhile_cons, ha, if_true]
    rw [ih (fun c hc => hf c (by simp [hc]))]

/-! ## Scanning one field -/

theorem scanSet_field (w : Nat) (stop : Char) (f rest : CStr) (hne : f ≠ [])
    (hs : stop ∉ f) (hl : f.length ≤ w) :
    scanSet w stop (f ++ stop :: rest) = some (f, stop :: rest) := by
  have htake : (f ++ stop :: rest).take w = f ++ (stop :: rest).take (w - f.length) := by
    rw [List.take_append_eq_append_take, List.take_of_length_le hl]
  have htw : ((f ++ stop :: rest).take w).takeWhile (fun c => c ≠ stop) = f := by
    rw [htake]
    apply takeWhile_append_stop
    · intro c hc
      have : c ≠ stop := fun e => hs (e ▸ hc)
      simpa using this
    · intro c hc
      cases hw : w - f.length with
      | zero => rw [hw] at hc; simp at hc
      | succ k =>
        rw [hw] at hc
        simp only [List.take_succ_cons, List.head?_cons, Option.some.injEq] at hc
        simp [← hc]
  unfold scanSet
  simp only [htw, hne, if_false, List.drop_left]

theorem matchLit_cons (c : Char) (rest : CStr) : matchLit c (c :: rest) = some rest := by
  simp [matchLit]

/-! ## Decimal digits -/

theorem digitsFold_eq (ds : List Char) (a : Nat) :
    ds.foldl (fun a c => 10 * a + (c.toNat - 48)) a = a * 10 ^ ds.length + digitsValue ds := by
  induction ds generalizing a with
  | nil => simp [digitsValue]
  | cons c ds ih =>
    simp only [List.foldl_cons, List.length_cons, digitsValue]
    rw [ih, ih (10 * 0 + (c.toNat - 48))]
    ring

theorem digitsValue_append (ds es : List Char) :
    digitsValue (ds ++ es) = digitsValue ds * 10 ^ es.length + digitsValue es := by
  unfold digitsValue
  rw [List.foldl_append, digitsFold_eq]
  rfl

theorem digitsValue_lt (ds : List Char) (hd : ∀ c ∈ ds, isdigit c = true) :
    digitsValue ds < 10 ^ ds.length := by
  induction ds using List.reverseRecOn with
  | nil => simp [digitsValue]
  | append_singleton ds c ih =>
    have hc := (isdigit_iff c).1 (hd c (by simp))
    have h := ih (fun x hx => hd x (by simp [hx]))
    have h1 : digitsValue [c] = c.toNat - 48 := by simp [digitsValue]
    rw [digitsValue_append, h1]
    simp only [List.length_append, List.length_singleton, pow_succ, pow_zero, pow_one]
    omega

theorem digitChar_toNat {n : Nat} (h : n < 10) : (Nat.digitChar n).toNat = 48 + n := by
  interval_cases n <;> rfl

theorem isdigit_digitChar {n : Nat} (h : n < 10) : isdigit (Nat.digitChar n) = true := by
  rw [isdigit_iff, digitChar_toNat h]; omega

theorem toDigitsCore_spec : ∀ (fuel n : Nat) (ds : List Char), n < fuel →
    ∃ pre : List Char, Nat.toDigitsCore 10 fuel n ds = pre ++ ds ∧ pre ≠ [] ∧
      (∀ c ∈ pre, isdigit c = true) ∧ digitsValue pre = n := by
  intro fuel
  induction fuel with
  | zero => intro n ds h; omega
  | succ fuel ih =>
    intro n ds h
    have hmod : n % 10 < 10 := Nat.mod_lt _ (by decide)
    by_cases h0 : n / 10 = 0
    · refine ⟨[Nat.digitChar (n % 10)], ?_, by simp, ?_, ?_⟩
      · simp [Nat.toDigitsCore, h0]
      · intro c hc
        simp only [List.mem_singleton] at hc
        rw [hc]; exact isdigit_digitChar hmod
      · simp only [digitsValue, List.foldl_cons, List.foldl_nil, digitChar_toNat hmod]
        omega
    · obtain ⟨pre, hpre, _, hdig, hval⟩ :=
        ih (n / 10) (Nat.digitChar (n % 10) :: ds) (by omega)
      refine ⟨pre ++ [Nat.digitChar (n % 10)], ?_, by simp, ?_, ?_⟩
      · simp [Nat.toDigitsCore, h0, hpre]
      · intro c hc
        rcases List.mem_append.1 hc with hc | hc
        · exact hdig c hc
        · simp only [List.mem_singleton] at hc
          rw [hc]; exact isdigit_digitChar hmod
      · have h1 : digitsValue [Nat.digitChar (n % 10)] = n % 10 := by
          simp [digitsValue, digitChar_toNat hmod]
        rw [digitsValue_append, hval, h1]
        simp only [List.length_singleton, pow_one]
        omega

theorem toDigits_spec (n : Nat) :
    Nat.toDigits 10 n ≠ [] ∧ (∀ c ∈ Nat.toDigits 10 n, isdigit c = true) ∧
      digitsValue (Nat.toDigits 10 n) = n := by
  obtain ⟨pre, hpre, hne, hdig, hval⟩ := toDigitsCore_spec (n + 1) n [] (by omega)
  have : Nat.toDigits 10 n = pre := by
    unfold Nat.toDigits; rw [hpre]; simp
  rw [this]; exact ⟨hne, hdig, hval⟩

/-! ## The conversion `%d` -/

theorem scanInt_digits (ds rest : CStr) (hne : ds ≠ []) (hd : ∀ c ∈ ds, isdigit c = true)
    (hrest : ∀ c, rest.head? = some c → isdigit c = false)
    (hv : digitsValue ds ≤ 2147483647) :
    scanInt (ds ++ rest) = some ((digitsValue ds : Int), rest) := by
  cases ds with
  | nil => exact absurd rfl hne
  | cons c ds =>
    have hc : isdigit c = true := hd c (by simp)
    have hskip : skipSpace (c :: ds ++ rest) = c :: ds ++ rest := by
      simp [skipSpace, List.dropWhile, isspace_of_isdigit hc]
    have hsign : scanSign (c :: ds ++ rest) = (false, c :: ds ++ rest) := by
      simp [scanSign, isdigit_ne_minus hc, isdigit_ne_plus hc]
    unfold scanInt
    simp only [hskip, hsign]
    rw [takeWhile_append_stop _ _ hd hrest, dropWhile_append_stop _ _ hd hrest]
    simp only [reduceCtorEq, if_false, Bool.false_eq_true]
    rw [clampLong_of_int (by omega) (by omega), toInt32_of_int (by omega) (by omega)]

theorem scanInt_neg_digits (ds rest : CStr) (hne : ds ≠ []) (hd : ∀ c ∈ ds, isdigit c = true)
    (hrest : ∀ c, rest.head? = some c → isdigit c = false)
    (hv : digitsValue ds ≤ 2147483648) :
    scanInt ('-' :: (ds ++ rest)) = some (-(digitsValue ds : Int), rest) := by
  have hskip : skipSpace ('-' :: (ds ++ rest)) = '-' :: (ds ++ rest) := by
    simp [skipSpace, List.dropWhile, isspace]
  have hsign : scanSign ('-' :: (ds ++ rest)) = (true, ds ++ rest) := by
    simp [scanSign]
  unfold scanInt
  simp only [hskip, hsign]
  rw [takeWhile_append_stop _ _ hd hrest, dropWhile_append_stop _ _ hd hrest]
  simp only [hne, if_false, if_true]
  rw [clampLong_of_int (by omega) (by omega), toInt32_of_int (by omega) (by omega)]

theorem scanInt_printInt (q : Int) (rest : CStr) (h1 : -2147483648 ≤ q) (h2 : q ≤ 2147483647)
    (hrest : ∀ c, rest.head? = some c → isdigit c = false) :
    scanInt (printInt q ++ rest) = some (q, rest) := by
  obtain ⟨hne, hdig, hval⟩ := toDigits_spec q.natAbs
  unfold printInt
  by_cases hq : q < 0
  · rw [if_pos hq, List.cons_append,
      scanInt_neg_digits _ _ hne hdig hrest (by rw [hval]; omega), hval]
    congr 2; omega
  · rw [if_neg hq, scanInt_digits _ _ hne hdig hrest (by rw [hval]; omega), hval]
    congr 2; omega


/-! ## Every successful `fscanf` consumes input -/

theorem scanSet_length {w : Nat} {stop : Char} {s : CStr} {p : CStr × CStr}
    (h : scanSet w stop s = some p) : p.2.length < s.length := by
  unfold scanSet at h
  simp only at h
  split_ifs at h with hf
  simp only [Option.some.injEq] at h
  subst h
  have h1 : ((s.take w).takeWhile (fun c => c ≠ stop)).length ≤ s.length :=
    le_trans (List.takeWhile_sublist _).length_le (List.take_sublist _ _).length_le
  have h2 : 0 < ((s.take w).takeWhile (fun c => c ≠ stop)).length :=
    List.length_pos.2 hf
  simp only [List.length_drop]
  omega

theorem matchLit_length {c : Char} {s t : CStr} (h : matchLit c s = some t) :
    t.length < s.length := by
  cases s with
  | nil => simp [matchLit] at h
  | cons x r =>
    simp only [matchLit] at h
    split_ifs at h
    simp only [Option.some.injEq] at h
    subst h
    simp

theorem skipSpace_length (s : CStr) : (skipSpace s).length ≤ s.length :=
  (List.dropWhile_sublist _).length_le

theorem scanSign_length (s : CStr) : (scanSign s).2.length ≤ s.length := by
  cases s with
  | nil => simp [scanSign]
  | cons c t =>
    simp only [scanSign]
    split_ifs <;> simp

theorem scanInt_length {s : CStr} {p : Int × CStr} (h : scanInt s = some p) :
    p.2.length ≤ s.length := by
  unfold scanInt at h
  simp only at h
  split_ifs at h <;>
  · simp only [Option.some.injEq] at h
    subst h
    exact le_trans (List.dropWhile_sublist _).length_le
      (le_trans (scanSign_length _) (skipSpace_length _))

theorem fscanfMedicine_progress {s : CStr} {m : Medicine} {rest : CStr}
    (h : fscanfMedicine s = some (m, rest)) : rest.length < s.length := by
  unfold fscanfMedicine at h
  split at h
  · cases h
  rename_i b1 hb1
  have lb1 := scanSet_length hb1
  split at h
  · cases h
  rename_i s1 hs1
  have ls1 := matchLit_length hs1
  split at h
  · cases h
  rename_i b2 hb2
  have lb2 := scanSet_length hb2
  split at h
  · cases h
  rename_i s2 hs2
  have ls2 := matchLit_length hs2
  split at h
  · cases h
  rename_i b3 hb3
  have lb3 := scanSet_length hb3
  split at h
  · cases h
  rename_i s3 hs3
  have ls3 := matchLit_length hs3
  split at h
  · cases h
  rename_i b4 hb4
  have lb4 := scanSet_length hb4
  split at h
  · cases h
  rename_i s4 hs4
  have ls4 := matchLit_length hs4
  split at h
  · cases h
  rename_i b5 hb5
  have lb5 := scanSet_length hb5
  split at h
  · cases h
  rename_i s5 hs5
  have ls5 := matchLit_length hs5
  split at h
  · cases h
  rename_i b6 hb6
  have lb6 := scanSet_length hb6
  split at h
  · cases h
  rename_i s6 hs6
  have ls6 := matchLit_length hs6
  split at h
  · cases h
  rename_i q hq
  have lq := scanInt_length hq
  split at h
  · cases h
  rename_i s7 hs7
  have ls7 := matchLit_length hs7
  split at h
  · cases h
  rename_i st hst
  have lst := scanSet_length hst
  simp only [Option.some.injEq, Prod.mk.injEq] at h
  obtain ⟨_, hrest⟩ := h
  have := skipSpace_length st.2
  rw [hrest] at this
  omega

theorem loadLoop_total : ∀ (fuel : Nat) (s : CStr) (acc : List Medicine), s.length < fuel →
    ∃ l, loadLoop fuel s acc = some l := by
  intro fuel
  induction fuel with
  | zero => intro s acc h; omega
  | succ fuel ih =>
    intro s acc h
    unfold loadLoop
    cases hf : fscanfMedicine s with
    | none => exact ⟨acc, rfl⟩
    | some p =>
      obtain ⟨m, rest⟩ := p
      have := fscanfMedicine_progress hf
      exact ih rest (m :: acc) (by omega)

theorem loadLoop_fuel : ∀ (fuel k : Nat) (s : CStr) (acc : List Medicine), s.length < fuel →
    loadLoop (fuel + k) s acc = loadLoop fuel s acc := by
  intro fuel
  induction fuel with
  | zero => intro k s acc h; omega
  | succ fuel ih =>
    intro k s acc h
    rw [show fuel + 1 + k = (fuel + k) + 1 by omega]
    unfold loadLoop
    cases hf : fscanfMedicine s with
    | none => rfl
    | some p =>
      obtain ⟨m, rest⟩ := p
      have := fscanfMedicine_progress hf
      exact ih k rest (m :: acc) (by omega)

theorem loadLoop_acc : ∀ (fuel : Nat) (s : CStr) (acc1 acc2 l : List Medicine),
    loadLoop fuel s acc1 = some l → loadLoop fuel s (acc1 ++ acc2) = some (l ++ acc2) := by
  intro fuel
  induction fuel with
  | zero => intro s acc1 acc2 l h; simp [loadLoop] at h
  | succ fuel ih =>
    intro s acc1 acc2 l h
    unfold loadLoop at h ⊢
    cases hf : fscanfMedicine s with
    | none =>
      rw [hf] at h
      simp only [Option.some.injEq] at h
      subst h; rfl
    | some p =>
      obtain ⟨m, rest⟩ := p
      rw [hf] at h
      exact ih rest (m :: acc1) acc2 l h

/-! ## Well-formed records -/

theorem scanOK_of_recordOK {r : Medicine} (h : recordOK r) : scanOK r := by
  obtain ⟨a, b, c, d, e, f, ⟨g1, _, g2, g3⟩, hq⟩ := h
  exact ⟨a, b, c, d, e, f, ⟨g1, g2, g3⟩, hq⟩

theorem lineScanOK_of_lineOK {r : Medicine} (h : lineOK r) : lineScanOK r :=
  ⟨scanOK_of_recordOK h.1, h.2⟩

/-! ## Decoding what `saveMedicines` writes -/

theorem scanInt_printInt_bar (q : Int) (rest : CStr) (h1 : -2147483648 ≤ q)
    (h2 : q ≤ 2147483647) : scanInt (printInt q ++ '|' :: rest) = some (q, '|' :: rest) := by
  apply scanInt_printInt q _ h1 h2
  intro c hc
  simp only [List.head?_cons, Option.some.injEq] at hc
  rw [← hc]; exact isdigit_bar

theorem skipSpace_newline (rest : CStr) : skipSpace ('\n' :: rest) = skipSpace rest := by
  simp [skipSpace, List.dropWhile, isspace]

theorem printLine_append (r : Medicine) (rest : CStr) :
    printLine r ++ rest =
      r.batchNumber ++ '|' :: (r.brandName ++ '|' :: (r.genericName ++ '|' :: (r.manufacturer ++
      '|' :: (r.manufacturedDate ++ '|' :: (r.expiryDate ++ '|' :: (printInt r.quantity ++
      '|' :: (r.status ++ '\n' :: rest))))))) := by
  simp [printLine]

theorem fscanfMedicine_printLine (r : Medicine) (rest : CStr) (h : scanOK r) :
    fscanfMedicine (printLine r ++ rest) = some (r, skipSpace rest) := by
  obtain ⟨⟨a1, a2, _, a3⟩, ⟨b1, b2, _, b3⟩, ⟨c1, c2, _, c3⟩, ⟨d1, d2, _, d3⟩, ⟨e1, e2, _, e3⟩,
    ⟨f1, f2, _, f3⟩, ⟨g1, g2, g3⟩, hq1, hq2⟩ := h
  rw [printLine_append]
  unfold fscanfMedicine
  simp only [scanSet_field _ _ _ _ a1 a2 a3, scanSet_field _ _ _ _ b1 b2 b3,
    scanSet_field _ _ _ _ c1 c2 c3, scanSet_field _ _ _ _ d1 d2 d3,
    scanSet_field _ _ _ _ e1 e2 e3, scanSet_field _ _ _ _ f1 f2 f3,
    scanSet_field _ _ _ _ g1 g2 g3, matchLit_cons, scanInt_printInt_bar _ _ hq1 hq2,
    skipSpace_newline]

theorem skipSpace_printLine (r : Medicine) (rest : CStr) (h : lineScanOK r) :
    skipSpace (printLine r ++ rest) = printLine r ++ rest := by
  obtain ⟨⟨⟨a1, _, _, _⟩, _⟩, hs⟩ := h
  rw [printLine_append]
  cases hb : r.batchNumber with
  | nil => exact absurd hb a1
  | cons c t =>
    rw [hb] at hs
    unfold skipSpace at hs ⊢
    simp only [List.cons_append, List.dropWhile_cons] at hs ⊢
    split_ifs at hs ⊢ with hc
    · exfalso
      have := (List.dropWhile_sublist isspace (l := t)).length_le
      rw [hs] at this
      simp at this
    · rfl

theorem length_le_saveMedicines (rs : List Medicine) : rs.length ≤ (saveMedicines rs).length := by
  induction rs with
  | nil => simp
  | cons r rs ih =>
    simp only [saveMedicines, List.length_cons, List.length_append, printLine]
    omega

theorem loadLoop_succ (fuel : Nat) (s : CStr) (acc : List Medicine) :
    loadLoop (fuel + 1) s acc =
      match fscanfMedicine s with
      | none => some acc
      | some (m, rest) => loadLoop fuel rest (m :: acc) := rfl

theorem loadLoop_lines (rest : CStr) : ∀ (rs acc : List Medicine) (k : Nat),
    (∀ r ∈ rs, lineScanOK r) →
    loadLoop (rs.length + k) (skipSpace (saveMedicines rs ++ rest)) acc =
      loadLoop k (skipSpace rest) (rs.reverse ++ acc) := by
  intro rs
  induction rs with
  | nil => intro acc k _; simp [saveMedicines]
  | cons r rs ih =>
    intro acc k h
    have hr : lineScanOK r := h r (by simp)
    rw [show (r :: rs).length + k = (rs.length + k) + 1 by simp; omega]
    simp only [saveMedicines, List.append_assoc]
    rw [skipSpace_printLine _ _ hr, loadLoop_succ, fscanfMedicine_printLine _ _ hr.1]
    simp only
    rw [ih (r :: acc) k (fun x hx => h x (by simp [hx]))]
    simp

theorem skipSpace_saveMedicines (rs : List Medicine) (rest : CStr)
    (h : ∀ r ∈ rs, lineScanOK r)
    (hne : rs ≠ []) : skipSpace (saveMedicines rs ++ rest) = saveMedicines rs ++ rest := by
  cases rs with
  | nil => exact absurd rfl hne
  | cons r rs =>
    simp only [saveMedicines, List.append_assoc]
    exact skipSpace_printLine _ _ (h r (by simp))

/-- Loading `n` well-formed lines followed by input on which the scan does not assign 8 fields
gives the `n` records, last line first, with recomputed statuses. -/
theorem loadMedicines_lines (clk : Clock) (rs : List Medicine) (rest : CStr)
    (h : ∀ r ∈ rs, lineScanOK r) (h1 : fscanfMedicine rest = none)
    (h2 : fscanfMedicine (skipSpace rest) = none) :
    loadMedicines clk (saveMedicines rs ++ rest) =
      some (updateAllMedicineStatuses clk rs.reverse) := by
  unfold loadMedicines
  by_cases hne : rs = []
  · subst hne
    simp [saveMedicines, loadLoop, h1]
  · have hlen := length_le_saveMedicines rs
    have e : (saveMedicines rs ++ rest).length + 1 = rs.length + (1 + ((saveMedicines rs).length - rs.length + rest.length)) := by
      simp only [List.length_append]; omega
    rw [e, ← skipSpace_saveMedicines rs rest h hne, loadLoop_lines rest rs [] _ h]
    simp [loadLoop, h2, Nat.add_comm 1]


/-! ## Dates of the form `YYYY-MM-DD` and the comparator -/

theorem digitsValue_le_of_length {ds : List Char} {n : Nat} (hd : ∀ c ∈ ds, isdigit c = true)
    (hl : ds.length = n) : digitsValue ds < 10 ^ n := by
  rw [← hl]; exact digitsValue_lt ds hd

theorem head_minus_not_digit (rest : CStr) :
    ∀ c, ('-' :: rest).head? = some c → isdigit c = false := by
  intro c hc
  simp only [List.head?_cons, Option.some.injEq] at hc
  rw [← hc]; exact isdigit_minus

theorem sscanfDate_of_isYMD {d : CStr} (h : isYMD d = true) :
    ∃ y m dd : Nat, sscanfDate d = some ((y : Int), (m : Int), (dd : Int)) ∧
      y < 10000 ∧ m < 100 ∧ dd < 100 := by
  unfold isYMD at h
  split at h
  · rename_i a b c e h1 f g h2 i j
    simp only [Bool.and_eq_true, beq_iff_eq] at h
    obtain ⟨⟨⟨⟨⟨⟨⟨⟨⟨ha, hb⟩, hc⟩, he⟩, hh1⟩, hf⟩, hg⟩, hh2⟩, hi⟩, hj⟩ := h
    subst hh1 hh2
    have dy : ∀ x ∈ [a, b, c, e], isdigit x = true := by
      intro x hx
      simp only [List.mem_cons, List.mem_singleton, List.not_mem_nil, or_false] at hx
      rcases hx with rfl | rfl | rfl | rfl <;> assumption
    have dm : ∀ x ∈ [f, g], isdigit x = true := by
      intro x hx
      simp only [List.mem_cons, List.mem_singleton, List.not_mem_nil, or_false] at hx
      rcases hx with rfl | rfl <;> assumption
    have dd : ∀ x ∈ [i, j], isdigit x = true := by
      intro x hx
      simp only [List.mem_cons, List.mem_singleton, List.not_mem_nil, or_false] at hx
      rcases hx with rfl | rfl <;> assumption
    have vy := digitsValue_le_of_length dy (n := 4) rfl
    have vm := digitsValue_le_of_length dm (n := 2) rfl
    have vd := digitsValue_le_of_length dd (n := 2) rfl
    norm_num at vy vm vd
    have s1 := scanInt_digits [a, b, c, e] ('-' :: ([f, g] ++ '-' :: ([i, j] ++ [])))
      (by simp) dy (head_minus_not_digit _) (by omega)
    have s2 := scanInt_digits [f, g] ('-' :: ([i, j] ++ [])) (by simp) dm
      (head_minus_not_digit _) (by omega)
    have s3 := scanInt_digits [i, j] [] (by simp) dd (by simp) (by omega)
    refine ⟨digitsValue [a, b, c, e], digitsValue [f, g], digitsValue [i, j], ?_, vy, vm, vd⟩
    simp only [List.cons_append, List.nil_append, List.append_nil] at s1 s2 s3
    unfold sscanfDate
    simp only [s1, s2, s3, matchLit_cons]
  · exact absurd h (by simp)

theorem smallDate_of_isYMD {d : CStr} (h : isYMD d = true) : smallDate d := by
  obtain ⟨y, m, dd, hs, hy, hm, hd⟩ := sscanfDate_of_isYMD h
  exact ⟨y, m, dd, hs, by omega, by omega, by omega, by omega, by omega, by omega⟩

theorem compareDate_parsed {a b : CStr} {y1 m1 d1 y2 m2 d2 : Int}
    (ha : sscanfDate a = some (y1, m1, d1)) (hb : sscanfDate b = some (y2, m2, d2)) :
    compareDate a b =
      if y1 ≠ y2 then toInt32 (y1 - y2)
      else if m1 ≠ m2 then toInt32 (m1 - m2) else toInt32 (d1 - d2) := by
  unfold compareDate
  rw [ha, hb]

theorem compareDate_unparsed_left {a : CStr} (b : CStr) (ha : sscanfDate a = none) :
    compareDate a b = strcmp a b := by
  unfold compareDate
  rw [ha]

theorem compareDate_unparsed_right (a : CStr) {b : CStr} (hb : sscanfDate b = none) :
    compareDate a b = strcmp a b := by
  unfold compareDate
  rw [hb]
  cases sscanfDate a with
  | none => rfl
  | some p => rfl

theorem compareDate_small {a b : CStr} (ha : smallDate a) (hb : smallDate b) :
    (compareDate a b ≤ 0 ↔ dateKey a ≤ dateKey b) ∧
    (compareDate a b < 0 ↔ dateKey a < dateKey b) ∧
    (compareDate a b = 0 ↔ dateKey a = dateKey b) := by
  obtain ⟨y1, m1, d1, h1, _, _, _, _, _, _⟩ := ha
  obtain ⟨y2, m2, d2, h2, _, _, _, _, _, _⟩ := hb
  rw [compareDate_parsed h1 h2]
  unfold dateKey
  rw [h1, h2]
  simp only
  by_cases hy : y1 = y2
  · by_cases hm : m1 = m2
    · rw [if_neg (not_not.2 hy), if_neg (not_not.2 hm),
        toInt32_of_int (by omega) (by omega)]
      subst hy hm
      refine ⟨?_, ?_, ?_⟩ <;> constructor <;> intro h <;> omega
    · rw [if_neg (not_not.2 hy), if_pos hm, toInt32_of_int (by omega) (by omega)]
      subst hy
      refine ⟨?_, ?_, ?_⟩ <;> constructor <;> intro h <;> omega
  · rw [if_pos hy, toInt32_of_int (by omega) (by omega)]
    refine ⟨?_, ?_, ?_⟩ <;> constructor <;> intro h <;> omega

theorem compareDate_le_iff {a b : CStr} (ha : smallDate a) (hb : smallDate b) :
    compareDate a b ≤ 0 ↔ dateKey a ≤ dateKey b := (compareDate_small ha hb).1

theorem compareDate_lt_iff {a b : CStr} (ha : smallDate a) (hb : smallDate b) :
    compareDate a b < 0 ↔ dateKey a < dateKey b := (compareDate_small ha hb).2.1

theorem compareDate_eq_iff {a b : CStr} (ha : smallDate a) (hb : smallDate b) :
    compareDate a b = 0 ↔ dateKey a = dateKey b := (compareDate_small ha hb).2.2


/-! ## Sorted listings -/

theorem smallDates_of_allYMD {l : List Medicine} (h : allYMD l) : smallDates l :=
  fun e he => smallDate_of_isYMD (h e he)

theorem smallDates_cons {a : Medicine} {l : List Medicine} :
    smallDates (a :: l) ↔ smallDate a.expiryDate ∧ smallDates l := by
  simp [smallDates]

theorem smallDates_append {l1 l2 : List Medicine} :
    smallDates (l1 ++ l2) ↔ smallDates l1 ∧ smallDates l2 := by
  simp only [smallDates, List.mem_append]
  constructor
  · intro h; exact ⟨fun e he => h e (Or.inl he), fun e he => h e (Or.inr he)⟩
  · rintro ⟨h1, h2⟩ e (he | he)
    · exact h1 e he
    · exact h2 e he

theorem keySorted_of_nonDecreasing : ∀ l : List Medicine, smallDates l →
    nonDecreasing l = true → keySorted l := by
  intro l
  induction l with
  | nil => intro _ _; exact List.Pairwise.nil
  | cons a l ih =>
    intro hg hs
    cases l with
    | nil => exact List.pairwise_singleton _ _
    | cons b rest =>
      simp only [nonDecreasing, Bool.and_eq_true, decide_eq_true_eq] at hs
      have hb := ih (fun e he => hg e (by simp [he])) hs.2
      have hab : dateKey a.expiryDate ≤ dateKey b.expiryDate :=
        (compareDate_le_iff (hg a (by simp)) (hg b (by simp))).1 hs.1
      refine List.Pairwise.cons ?_ hb
      intro e he
      rcases List.mem_cons.1 he with rfl | he
      · exact hab
      · exact le_trans hab (List.rel_of_pairwise_cons hb he)

theorem nonDecreasing_of_keySorted : ∀ l : List Medicine, smallDates l →
    keySorted l → nonDecreasing l = true := by
  intro l
  induction l with
  | nil => intro _ _; rfl
  | cons a l ih =>
    intro hg hs
    cases l with
    | nil => rfl
    | cons b rest =>
      simp only [nonDecreasing, Bool.and_eq_true, decide_eq_true_eq]
      refine ⟨?_, ih (fun e he => hg e (by simp [he])) (List.Pairwise.of_cons hs)⟩
      exact (compareDate_le_iff (hg a (by simp)) (hg b (by simp))).2
        (List.rel_of_pairwise_cons hs (by simp))

/-! ## Sorted insertion -/

theorem insertAfter_cons (x a : Medicine) (L : List Medicine) :
    insertAfter x (a :: L) =
      if compareDate a.expiryDate x.expiryDate ≤ 0 then a :: insertAfter x L
      else x :: a :: L := rfl

theorem sortedInsert_cons (x h : Medicine) (t : List Medicine) :
    sortedInsertByExpiry (h :: t) x =
      if compareDate x.expiryDate h.expiryDate < 0 then x :: h :: t
      else h :: insertAfter x t := rfl

theorem sortedInsert_eq_insertAfter (L : List Medicine) (x : Medicine)
    (hx : smallDate x.expiryDate) (hL : smallDates L) :
    sortedInsertByExpiry L x = insertAfter x L := by
  cases L with
  | nil => rfl
  | cons h t =>
    have hh : smallDate h.expiryDate := hL h (by simp)
    rw [sortedInsert_cons, insertAfter_cons]
    by_cases hc : compareDate x.expiryDate h.expiryDate < 0
    · have : ¬ compareDate h.expiryDate x.expiryDate ≤ 0 := by
        rw [compareDate_le_iff hh hx]
        have := (compareDate_lt_iff hx hh).1 hc
        omega
      simp only [hc, this, if_true, if_false]
    · have : compareDate h.expiryDate x.expiryDate ≤ 0 := by
        rw [compareDate_le_iff hh hx]
        have := (not_congr (compareDate_lt_iff hx hh)).1 hc
        omega
      simp only [hc, this, if_true, if_false]

theorem insertAfter_all_le (x : Medicine) : ∀ L : List Medicine,
    (∀ e ∈ L, compareDate e.expiryDate x.expiryDate ≤ 0) → insertAfter x L = L ++ [x] := by
  intro L
  induction L with
  | nil => intro _; rfl
  | cons a L ih =>
    intro h
    rw [insertAfter_cons, if_pos (h a (by simp)), ih (fun e he => h e (by simp [he]))]
    rfl

theorem insertAfter_before (x r : Medicine) (B : List Medicine) : ∀ L : List Medicine,
    (∀ e ∈ L, compareDate e.expiryDate x.expiryDate ≤ 0) →
    ¬ compareDate r.expiryDate x.expiryDate ≤ 0 →
    insertAfter x (L ++ r :: B) = L ++ x :: r :: B := by
  intro L
  induction L with
  | nil => intro _ hr; rw [List.nil_append, insertAfter_cons, if_neg hr]; rfl
  | cons a L ih =>
    intro h hr
    rw [List.cons_append, insertAfter_cons, if_pos (h a (by simp)),
      ih (fun e he => h e (by simp [he])) hr]
    rfl

theorem foldl_insert_sorted : ∀ (l acc : List Medicine), smallDates (acc ++ l) →
    keySorted (acc ++ l) → l.foldl sortedInsertByExpiry acc = acc ++ l := by
  intro l
  induction l with
  | nil => intro acc _ _; simp
  | cons x l ih =>
    intro acc hg hs
    have hx : smallDate x.expiryDate := hg x (by simp)
    have hacc : smallDates acc := (smallDates_append.1 hg).1
    have hle : ∀ e ∈ acc, compareDate e.expiryDate x.expiryDate ≤ 0 := by
      intro e he
      rw [compareDate_le_iff (hacc e he) hx]
      exact (List.pairwise_append.1 hs).2.2 e he x (by simp)
    simp only [List.foldl_cons]
    rw [sortedInsert_eq_insertAfter acc x hx hacc, insertAfter_all_le x acc hle]
    have e : acc ++ [x] ++ l = acc ++ x :: l := by simp
    rw [ih (acc ++ [x]) (by rw [e]; exact hg) (by rw [e]; exact hs), e]

theorem foldl_insert_lt (r : Medicine) (hr : smallDate r.expiryDate) :
    ∀ (l acc : List Medicine), smallDates (acc ++ l) → keySorted (acc ++ l) →
    (∀ e ∈ l, dateKey e.expiryDate < dateKey r.expiryDate) →
    l.foldl sortedInsertByExpiry (acc ++ [r]) = acc ++ l ++ [r] := by
  intro l
  induction l with
  | nil => intro acc _ _ _; simp
  | cons x l ih =>
    intro acc hg hs hlt
    have hx : smallDate x.expiryDate := hg x (by simp)
    have hacc : smallDates acc := (smallDates_append.1 hg).1
    have hle : ∀ e ∈ acc, compareDate e.expiryDate x.expiryDate ≤ 0 := by
      intro e he
      rw [compareDate_le_iff (hacc e he) hx]
      exact (List.pairwise_append.1 hs).2.2 e he x (by simp)
    have hrx : ¬ compareDate r.expiryDate x.expiryDate ≤ 0 := by
      rw [compareDate_le_iff hr hx]
      have := hlt x (by simp)
      omega
    have hgr : smallDates (acc ++ [r]) :=
      smallDates_append.2 ⟨hacc, fun e he => by
        simp only [List.mem_singleton] at he; rw [he]; exact hr⟩
    simp only [List.foldl_cons]
    rw [sortedInsert_eq_insertAfter _ x hx hgr, insertAfter_before x r [] acc hle hrx]
    have e : acc ++ [x] ++ l = acc ++ x :: l := by simp
    have e2 : acc ++ [x, r] = (acc ++ [x]) ++ [r] := by simp
    rw [e2, ih (acc ++ [x]) (by rw [e]; exact hg) (by rw [e]; exact hs)
      (fun e he => hlt e (by simp [he]))]
    simp

theorem sort_of_sorted (l : List Medicine) (hg : smallDates l) (hs : keySorted l) :
    sortMedicinesByExpiry l = l := by
  unfold sortMedicinesByExpiry
  rw [foldl_insert_sorted l [] (by simpa using hg) (by simpa using hs)]
  simp

/-! ## The re-sort keeps the records -/

theorem insertAfter_perm (x : Medicine) : ∀ L : List Medicine,
    List.Perm (insertAfter x L) (x :: L) := by
  intro L
  induction L with
  | nil => exact List.Perm.refl _
  | cons a L ih =>
    rw [insertAfter_cons]
    split_ifs
    · exact (List.Perm.cons a ih).trans (List.Perm.swap x a L)
    · exact List.Perm.refl _

theorem sortedInsert_perm (L : List Medicine) (x : Medicine) :
    List.Perm (sortedInsertByExpiry L x) (x :: L) := by
  cases L with
  | nil => exact List.Perm.refl _
  | cons a L =>
    rw [sortedInsert_cons]
    split_ifs
    · exact List.Perm.refl _
    · exact (List.Perm.cons a (insertAfter_perm x L)).trans (List.Perm.swap x a L)

theorem foldl_insert_perm : ∀ (l acc : List Medicine),
    List.Perm (l.foldl sortedInsertByExpiry acc) (acc ++ l) := by
  intro l
  induction l with
  | nil => intro acc; simp
  | cons x l ih =>
    intro acc
    simp only [List.foldl_cons]
    refine (ih _).trans ?_
    refine (List.Perm.append_right l (sortedInsert_perm acc x)).trans ?_
    simp only [List.cons_append]
    exact List.perm_middle.symm

theorem sort_perm (l : List Medicine) : List.Perm (sortMedicinesByExpiry l) l := by
  unfold sortMedicinesByExpiry
  simpa using foldl_insert_perm l []


/-! ## Adding to a sorted listing -/

theorem keySorted_sublist {l1 l2 : List Medicine} (h : List.Sublist l1 l2)
    (hs : keySorted l2) : keySorted l1 :=
  List.Pairwise.sublist h hs

theorem smallDates_sublist {l1 l2 : List Medicine} (h : List.Sublist l1 l2)
    (hs : smallDates l2) : smallDates l1 :=
  fun e he => hs e (h.subset he)

theorem dropWhile_ge (r : Medicine) (hr : smallDate r.expiryDate) : ∀ l : List Medicine,
    smallDates l → keySorted l →
    ∀ e ∈ l.dropWhile (fun e => decide (compareDate e.expiryDate r.expiryDate < 0)),
      dateKey r.expiryDate ≤ dateKey e.expiryDate := by
  intro l
  induction l with
  | nil => intro _ _ e he; simp at he
  | cons a l ih =>
    intro hg hs e he
    rw [List.dropWhile_cons] at he
    by_cases hc : compareDate a.expiryDate r.expiryDate < 0
    · simp only [hc, decide_True, if_true] at he
      exact ih (fun x hx => hg x (by simp [hx])) (List.Pairwise.of_cons hs) e he
    · simp only [hc, decide_False, Bool.false_eq_true, if_false] at he
      have ha : dateKey r.expiryDate ≤ dateKey a.expiryDate := by
        have := (not_congr (compareDate_lt_iff (hg a (by simp)) hr)).1 hc
        omega
      rcases List.mem_cons.1 he with rfl | he
      · exact ha
      · exact le_trans ha (List.rel_of_pairwise_cons hs he)

theorem takeWhile_lt (r : Medicine) (hr : smallDate r.expiryDate) (l : List Medicine)
    (hg : smallDates l) :
    ∀ e ∈ l.takeWhile (fun e => decide (compareDate e.expiryDate r.expiryDate < 0)),
      dateKey e.expiryDate < dateKey r.expiryDate := by
  intro e he
  have h1 := List.mem_takeWhile_imp he
  simp only [decide_eq_true_eq] at h1
  exact (compareDate_lt_iff (hg e ((List.takeWhile_sublist _).subset he)) hr).1 h1

theorem keySorted_insert_at (r : Medicine) (hr : smallDate r.expiryDate) (l : List Medicine)
    (hg : smallDates l) (hs : keySorted l) :
    keySorted (l.takeWhile (fun e => decide (compareDate e.expiryDate r.expiryDate < 0)) ++
      r :: l.dropWhile (fun e => decide (compareDate e.expiryDate r.expiryDate < 0))) := by
  unfold keySorted
  rw [List.pairwise_append]
  have hge := dropWhile_ge r hr l hg hs
  have hlt := takeWhile_lt r hr l hg
  refine ⟨keySorted_sublist (List.takeWhile_sublist _) hs, ?_, ?_⟩
  · exact List.Pairwise.cons hge (keySorted_sublist (List.dropWhile_sublist _) hs)
  · intro a ha b hb
    have h1 := hlt a ha
    rcases List.mem_cons.1 hb with rfl | hb
    · omega
    · have := hge b hb
      omega

theorem smallDates_insert_at (r : Medicine) (hr : smallDate r.expiryDate) (p : Medicine → Bool)
    (l : List Medicine) (hg : smallDates l) :
    smallDates (l.takeWhile p ++ r :: l.dropWhile p) := by
  intro e he
  rcases List.mem_append.1 he with h | h
  · exact hg e ((List.takeWhile_sublist _).subset h)
  · rcases List.mem_cons.1 h with rfl | h
    · exact hr
    · exact hg e ((List.dropWhile_sublist _).subset h)

theorem sort_cons_sorted (r : Medicine) (l : List Medicine) (hr : smallDate r.expiryDate)
    (hg : smallDates l) (hs : keySorted l) :
    sortMedicinesByExpiry (r :: l) =
      l.takeWhile (fun e => decide (compareDate e.expiryDate r.expiryDate < 0)) ++
      r :: l.dropWhile (fun e => decide (compareDate e.expiryDate r.expiryDate < 0)) := by
  have hsplit := List.takeWhile_append_dropWhile
    (fun e : Medicine => decide (compareDate e.expiryDate r.expiryDate < 0)) l
  have h1 : sortMedicinesByExpiry (r :: l) = l.foldl sortedInsertByExpiry [r] := rfl
  have htw := foldl_insert_lt r hr
    (l.takeWhile (fun e => decide (compareDate e.expiryDate r.expiryDate < 0))) []
    (by simpa using smallDates_sublist (List.takeWhile_sublist _) hg)
    (by simpa using keySorted_sublist (List.takeWhile_sublist _) hs)
    (takeWhile_lt r hr l hg)
  simp only [List.nil_append] at htw
  have hks := keySorted_insert_at r hr l hg hs
  have hsd := smallDates_insert_at r hr
    (fun e => decide (compareDate e.expiryDate r.expiryDate < 0)) l hg
  rw [h1]
  conv_lhs => rw [← hsplit]
  rw [List.foldl_append, htw, foldl_insert_sorted _ _ (by simpa using hsd) (by simpa using hks)]
  simp

/-! ## Searching, unlinking and changing a record -/

theorem strcmp_eq_zero_iff : ∀ a b : CStr, strcmp a b = 0 ↔ a = b := by
  intro a
  induction a with
  | nil =>
    intro b
    cases b with
    | nil => simp [strcmp]
    | cons c t => simp [strcmp]
  | cons x s ih =>
    intro b
    cases b with
    | nil => simp [strcmp]
    | cons c t =>
      by_cases hxc : x = c
      · subst hxc
        simp [strcmp, ih t]
      · have hne : strcmp (x :: s) (c :: t) ≠ 0 := by
          rw [strcmp, if_neg hxc]
          split_ifs <;> decide
        simp [hne, hxc]

theorem searchMedicine_eq_none {l : List Medicine} {b : CStr} :
    searchMedicine l b = none ↔ ∀ t ∈ l, t.batchNumber ≠ b := by
  simp [searchMedicine, List.find?_eq_none, strcmp_eq_zero_iff]

theorem searchMedicine_isSome {l : List Medicine} {b : CStr} :
    (∃ t ∈ l, t.batchNumber = b) ↔ ∃ m, searchMedicine l b = some m := by
  constructor
  · rintro ⟨t, ht, hb⟩
    cases h : searchMedicine l b with
    | none => exact absurd hb (searchMedicine_eq_none.1 h t ht)
    | some m => exact ⟨m, rfl⟩
  · rintro ⟨m, hm⟩
    by_contra hne
    push_neg at hne
    rw [searchMedicine_eq_none.2 hne] at hm
    cases hm

theorem unlinkFirst_eq_none {l : List Medicine} {b : CStr} :
    unlinkFirst b l = none ↔ ∀ t ∈ l, t.batchNumber ≠ b := by
  induction l with
  | nil => simp [unlinkFirst]
  | cons a l ih =>
    by_cases h : a.batchNumber = b
    · simp [unlinkFirst, strcmp_eq_zero_iff, h]
    · simp [unlinkFirst, strcmp_eq_zero_iff, h, ih]

theorem unlinkFirst_eq_some {b : CStr} : ∀ {l l2 : List Medicine}, unlinkFirst b l = some l2 →
    ∃ A x B, l = A ++ x :: B ∧ x.batchNumber = b ∧ (∀ t ∈ A, t.batchNumber ≠ b) ∧
      l2 = A ++ B := by
  intro l
  induction l with
  | nil => intro l2 h; simp [unlinkFirst] at h
  | cons a l ih =>
    intro l2 h
    by_cases hb : a.batchNumber = b
    · simp only [unlinkFirst, bne_iff_ne, ne_eq, (strcmp_eq_zero_iff _ _).2 hb, not_true,
        if_false, Option.some.injEq] at h
      exact ⟨[], a, l, rfl, hb, by simp, by simp [h]⟩
    · have hne : strcmp a.batchNumber b ≠ 0 := fun e => hb ((strcmp_eq_zero_iff _ _).1 e)
      simp only [unlinkFirst, bne_iff_ne, ne_eq, hne, not_false_eq_true, if_true,
        Option.map_eq_some'] at h
      obtain ⟨l3, h3, rfl⟩ := h
      obtain ⟨A, x, B, hl, hx, hA, h4⟩ := ih h3
      refine ⟨a :: A, x, B, by simp [hl], hx, ?_, by simp [h4]⟩
      intro t ht
      rcases List.mem_cons.1 ht with rfl | ht
      · exact hb
      · exact hA t ht

theorem unlinkFirst_split (b : CStr) (A B : List Medicine) (x : Medicine)
    (hx : x.batchNumber = b) (hA : ∀ t ∈ A, t.batchNumber ≠ b) :
    unlinkFirst b (A ++ x :: B) = some (A ++ B) := by
  induction A with
  | nil => simp [unlinkFirst, (strcmp_eq_zero_iff _ _).2 hx]
  | cons a A ih =>
    have hne : strcmp a.batchNumber b ≠ 0 :=
      fun e => hA a (by simp) ((strcmp_eq_zero_iff _ _).1 e)
    simp [unlinkFirst, hne, ih (fun t ht => hA t (by simp [ht]))]

theorem setQuantity_split (clk : Clock) (b : CStr) (q : Int) (A B : List Medicine)
    (x : Medicine) (hx : x.batchNumber = b) (hA : ∀ t ∈ A, t.batchNumber ≠ b) :
    setQuantity clk b q (A ++ x :: B) =
      A ++ updateExpiryAndStockStatus clk { x with quantity := q } :: B := by
  induction A with
  | nil => simp [setQuantity, (strcmp_eq_zero_iff _ _).2 hx]
  | cons a A ih =>
    have hne : strcmp a.batchNumber b ≠ 0 :=
      fun e => hA a (by simp) ((strcmp_eq_zero_iff _ _).1 e)
    simp [setQuantity, hne, ih (fun t ht => hA t (by simp [ht]))]

theorem setQuantity_dates (clk : Clock) (b : CStr) (q : Int) : ∀ l : List Medicine,
    (setQuantity clk b q l).map Medicine.expiryDate = l.map Medicine.expiryDate := by
  intro l
  induction l with
  | nil => rfl
  | cons a l ih =>
    unfold setQuantity
    split_ifs
    · simp [updateExpiryAndStockStatus]
    · simp [ih]

theorem first_match_split {b : CStr} : ∀ {l : List Medicine}, (∃ t ∈ l, t.batchNumber = b) →
    ∃ A x B, l = A ++ x :: B ∧ x.batchNumber = b ∧ (∀ t ∈ A, t.batchNumber ≠ b) := by
  intro l h
  cases hu : unlinkFirst b l with
  | none =>
    obtain ⟨t, ht, hb⟩ := h
    exact absurd hb (unlinkFirst_eq_none.1 hu t ht)
  | some l2 =>
    obtain ⟨A, x, B, h1, h2, h3, _⟩ := unlinkFirst_eq_some hu
    exact ⟨A, x, B, h1, h2, h3⟩


/-! ## The three mutations on a sorted store -/

theorem addMedicine_fresh (clk : Clock) (store : List Medicine) (r : Medicine)
    (h : searchMedicine store r.batchNumber = none) :
    addMedicine clk store r =
      (Report.added, sortMedicinesByExpiry (updateExpiryAndStockStatus clk r :: store)) := by
  unfold addMedicine; rw [h]

theorem addMedicine_dup (clk : Clock) (store : List Medicine) (r m : Medicine)
    (h : searchMedicine store r.batchNumber = some m) :
    addMedicine clk store r = (Report.batchExists, store) := by
  unfold addMedicine; rw [h]

theorem addMedicine_fresh_sorted (clk : Clock) (store : List Medicine) (r : Medicine)
    (hg : allYMD store) (hs : nonDecreasing store = true) (hr : isYMD r.expiryDate = true)
    (h : searchMedicine store r.batchNumber = none) :
    addMedicine clk store r =
      (Report.added,
        store.takeWhile (fun e => decide (compareDate e.expiryDate r.expiryDate < 0)) ++
        updateExpiryAndStockStatus clk r ::
        store.dropWhile (fun e => decide (compareDate e.expiryDate r.expiryDate < 0))) := by
  rw [addMedicine_fresh clk store r h]
  have hsd := smallDates_of_allYMD hg
  rw [sort_cons_sorted (updateExpiryAndStockStatus clk r) store (smallDate_of_isYMD hr) hsd
    (keySorted_of_nonDecreasing store hsd hs)]
  rfl

theorem allYMD_sublist {l1 l2 : List Medicine} (h : List.Sublist l1 l2) (hg : allYMD l2) :
    allYMD l1 :=
  fun e he => hg e (h.subset he)

theorem allYMD_insert_at (r : Medicine) (hr : isYMD r.expiryDate = true) (p : Medicine → Bool)
    (l : List Medicine) (hg : allYMD l) : allYMD (l.takeWhile p ++ r :: l.dropWhile p) := by
  intro e he
  rcases List.mem_append.1 he with h | h
  · exact hg e ((List.takeWhile_sublist _).subset h)
  · rcases List.mem_cons.1 h with rfl | h
    · exact hr
    · exact hg e ((List.dropWhile_sublist _).subset h)

theorem inv_addMedicine (clk : Clock) (store : List Medicine) (r : Medicine)
    (hg : allYMD store) (hs : nonDecreasing store = true) (hr : isYMD r.expiryDate = true) :
    allYMD (addMedicine clk store r).2 ∧ nonDecreasing (addMedicine clk store r).2 = true := by
  cases h : searchMedicine store r.batchNumber with
  | some m => rw [addMedicine_dup clk store r m h]; exact ⟨hg, hs⟩
  | none =>
    rw [addMedicine_fresh_sorted clk store r hg hs hr h]
    have hsd := smallDates_of_allYMD hg
    have hr2 : isYMD (updateExpiryAndStockStatus clk r).expiryDate = true := hr
    have hall := allYMD_insert_at (updateExpiryAndStockStatus clk r) hr2
      (fun e => decide (compareDate e.expiryDate r.expiryDate < 0)) store hg
    refine ⟨hall, nonDecreasing_of_keySorted _ (smallDates_of_allYMD hall) ?_⟩
    exact keySorted_insert_at (updateExpiryAndStockStatus clk r) (smallDate_of_isYMD hr2) store
      hsd (keySorted_of_nonDecreasing store hsd hs)

theorem allYMD_congr {l1 l2 : List Medicine}
    (h : l1.map Medicine.expiryDate = l2.map Medicine.expiryDate) (hg : allYMD l2) :
    allYMD l1 := by
  intro e he
  have : e.expiryDate ∈ l2.map Medicine.expiryDate := by
    rw [← h]; exact List.mem_map_of_mem _ he
  obtain ⟨x, hx, hxe⟩ := List.mem_map.1 this
  rw [← hxe]; exact hg x hx

theorem nonDecreasing_congr : ∀ l1 l2 : List Medicine,
    l1.map Medicine.expiryDate = l2.map Medicine.expiryDate →
    nonDecreasing l1 = nonDecreasing l2 := by
  intro l1
  induction l1 with
  | nil =>
    intro l2 h
    cases l2 with
    | nil => rfl
    | cons b l2 => simp at h
  | cons a l1 ih =>
    intro l2 h
    cases l2 with
    | nil => simp at h
    | cons b l2 =>
      simp only [List.map_cons, List.cons.injEq] at h
      obtain ⟨hab, ht⟩ := h
      have hrec := ih l2 ht
      cases l1 with
      | nil =>
        cases l2 with
        | nil => rfl
        | cons b2 l2 => simp at ht
      | cons a2 l1 =>
        cases l2 with
        | nil => simp at ht
        | cons b2 l2 =>
          simp only [List.map_cons, List.cons.injEq] at ht
          simp only [nonDecreasing, hab, ht.1]
          rw [hrec]

theorem updateMedicine_found_sorted (clk : Clock) (store : List Medicine) (b : CStr) (q : Int)
    (m : Medicine) (hg : allYMD store) (hs : nonDecreasing store = true)
    (h : searchMedicine store b = some m) :
    updateMedicine clk store b q = (Report.updated, setQuantity clk b q store) := by
  unfold updateMedicine; rw [h]
  have hd := setQuantity_dates clk b q store
  have hg2 : allYMD (setQuantity clk b q store) := allYMD_congr hd hg
  have hs2 : nonDecreasing (setQuantity clk b q store) = true := by
    rw [nonDecreasing_congr _ _ hd]; exact hs
  have hsd := smallDates_of_allYMD hg2
  simp only
  rw [sort_of_sorted _ hsd (keySorted_of_nonDecreasing _ hsd hs2)]

theorem inv_updateMedicine (clk : Clock) (store : List Medicine) (b : CStr) (q : Int)
    (hg : allYMD store) (hs : nonDecreasing store = true) :
    allYMD (updateMedicine clk store b q).2 ∧
      nonDecreasing (updateMedicine clk store b q).2 = true := by
  cases h : searchMedicine store b with
  | none =>
    have : updateMedicine clk store b q = (Report.notFound, store) := by
      unfold updateMedicine; rw [h]
    rw [this]; exact ⟨hg, hs⟩
  | some m =>
    rw [updateMedicine_found_sorted clk store b q m hg hs h]
    have hd := setQuantity_dates clk b q store
    exact ⟨allYMD_congr hd hg, by rw [nonDecreasing_congr _ _ hd]; exact hs⟩

theorem unlinkFirst_sublist {b : CStr} {l l2 : List Medicine} (h : unlinkFirst b l = some l2) :
    List.Sublist l2 l := by
  obtain ⟨A, x, B, h1, _, _, h2⟩ := unlinkFirst_eq_some h
  rw [h1, h2]
  exact List.Sublist.append_left (List.sublist_cons_self x B) A

theorem inv_deleteMedicine (store : List Medicine) (b : CStr)
    (hg : allYMD store) (hs : nonDecreasing store = true) :
    allYMD (deleteMedicine store b).2 ∧ nonDecreasing (deleteMedicine store b).2 = true := by
  unfold deleteMedicine
  cases h : unlinkFirst b store with
  | none => exact ⟨hg, hs⟩
  | some l2 =>
    have hsub := unlinkFirst_sublist h
    have hg2 := allYMD_sublist hsub hg
    have hsd := smallDates_of_allYMD hg
    exact ⟨hg2, nonDecreasing_of_keySorted _ (smallDates_of_allYMD hg2)
      (keySorted_sublist hsub (keySorted_of_nonDecreasing store hsd hs))⟩

theorem inv_runOps : ∀ (ops : List Op) (store : List Medicine), allYMD store →
    nonDecreasing store = true → (∀ op ∈ ops, opYMD op = true) →
    allYMD (runOps store ops) ∧ nonDecreasing (runOps store ops) = true := by
  intro ops
  induction ops with
  | nil => intro store hg hs _; exact ⟨hg, hs⟩
  | cons op ops ih =>
    intro store hg hs hops
    have hop := hops op (by simp)
    have hstep : allYMD (applyOp store op) ∧ nonDecreasing (applyOp store op) = true := by
      cases op with
      | add clk m => exact inv_addMedicine clk store m hg hs hop
      | update clk b q => exact inv_updateMedicine clk store b q hg hs
      | delete b => exact inv_deleteMedicine store b hg hs
    exact ih (applyOp store op) hstep.1 hstep.2 (fun o ho => hops o (by simp [ho]))

/-! ## The order given by `strcmp` -/

theorem char_eq_of_toNat_eq {x y : Char} (h : x.toNat = y.toNat) : x = y := by
  apply Char.ext
  apply UInt32.ext
  exact h

theorem strcmp_cons_same (x : Char) (s t : CStr) : strcmp (x :: s) (x :: t) = strcmp s t := by
  simp [strcmp]

theorem strcmp_cons_lt {x y : Char} (s t : CStr) (h : x.toNat < y.toNat) :
    strcmp (x :: s) (y :: t) = -1 := by
  have hne : x ≠ y := fun e => by rw [e] at h; omega
  simp [strcmp, hne, h]

theorem strcmp_cons_gt {x y : Char} (s t : CStr) (h : y.toNat < x.toNat) :
    strcmp (x :: s) (y :: t) = 1 := by
  have hne : x ≠ y := fun e => by rw [e] at h; omega
  have hnl : ¬ x.toNat < y.toNat := by omega
  simp [strcmp, hne, hnl]

theorem strcmp_antisymm : ∀ a b : CStr,
    (strcmp a b < 0 ↔ 0 < strcmp b a) ∧ (strcmp a b = 0 ↔ strcmp b a = 0) := by
  intro a
  induction a with
  | nil =>
    intro b
    cases b with
    | nil => simp [strcmp]
    | cons y t => simp [strcmp]
  | cons x s ih =>
    intro b
    cases b with
    | nil => simp [strcmp]
    | cons y t =>
      rcases Nat.lt_trichotomy x.toNat y.toNat with h | h | h
      · rw [strcmp_cons_lt s t h, strcmp_cons_gt t s h]; simp
      · have e := char_eq_of_toNat_eq h
        subst e
        rw [strcmp_cons_same, strcmp_cons_same]
        exact ih t
      · rw [strcmp_cons_gt s t h, strcmp_cons_lt t s h]; simp

theorem strcmp_trans : ∀ a b c : CStr, strcmp a b ≤ 0 → strcmp b c ≤ 0 → strcmp a c ≤ 0 := by
  intro a
  induction a with
  | nil =>
    intro b c _ _
    cases c with
    | nil => simp [strcmp]
    | cons z u => simp [strcmp]
  | cons x s ih =>
    intro b c hab hbc
    cases b with
    | nil => simp [strcmp] at hab
    | cons y t =>
      cases c with
      | nil => simp [strcmp] at hbc
      | cons z u =>
        rcases Nat.lt_trichotomy x.toNat y.toNat with h | h | h
        · rcases Nat.lt_trichotomy y.toNat z.toNat with k | k | k
          · rw [strcmp_cons_lt s u (by omega)]; decide
          · rw [strcmp_cons_lt s u (by omega)]; decide
          · rw [strcmp_cons_gt t u k] at hbc; exact absurd hbc (by decide)
        · have e := char_eq_of_toNat_eq h
          subst e
          rcases Nat.lt_trichotomy x.toNat z.toNat with k | k | k
          · rw [strcmp_cons_lt s u k]; decide
          · have e := char_eq_of_toNat_eq k
            subst e
            rw [strcmp_cons_same] at hab hbc ⊢
            exact ih t u hab hbc
          · rw [strcmp_cons_gt t u k] at hbc; exact absurd hbc (by decide)
        · rw [strcmp_cons_gt s t h] at hab; exact absurd hab (by decide)

/-! ## The re-sort leaves no descent, whatever the dates -/

theorem toInt32_range (v : Int) : -2147483648 ≤ toInt32 v ∧ toInt32 v ≤ 2147483647 := by
  unfold toInt32; omega

theorem scanInt_range {s : CStr} {p : Int × CStr} (h : scanInt s = some p) :
    -2147483648 ≤ p.1 ∧ p.1 ≤ 2147483647 := by
  unfold scanInt at h
  simp only at h
  split_ifs at h <;>
  · simp only [Option.some.injEq] at h
    subst h
    exact toInt32_range _

theorem sscanfDate_range {d : CStr} {y m dd : Int} (h : sscanfDate d = some (y, m, dd)) :
    (-2147483648 ≤ y ∧ y ≤ 2147483647) ∧ (-2147483648 ≤ m ∧ m ≤ 2147483647) ∧
    (-2147483648 ≤ dd ∧ dd ≤ 2147483647) := by
  unfold sscanfDate at h
  split at h
  · cases h
  rename_i p1 h1
  split at h
  · cases h
  split at h
  · cases h
  rename_i p2 h2
  split at h
  · cases h
  split at h
  · cases h
  rename_i p3 h3
  simp only [Option.some.injEq, Prod.mk.injEq] at h
  obtain ⟨rfl, rfl, rfl⟩ := h
  exact ⟨scanInt_range h1, scanInt_range h2, scanInt_range h3⟩

theorem toInt32_sub_swap {a b : Int} (ha : -2147483648 ≤ a ∧ a ≤ 2147483647)
    (hb : -2147483648 ≤ b ∧ b ≤ 2147483647) (h : 0 ≤ toInt32 (a - b)) :
    toInt32 (b - a) ≤ 0 := by
  unfold toInt32 at h ⊢
  omega

/-- For all strings: when `compareDate a b` is not negative, `compareDate b a` is not
positive. -/
theorem compareDate_swap (a b : CStr) (h : 0 ≤ compareDate a b) : compareDate b a ≤ 0 := by
  cases ha : sscanfDate a with
  | none =>
    rw [compareDate_unparsed_left b ha] at h
    rw [compareDate_unparsed_right b ha]
    have := strcmp_antisymm b a
    omega
  | some pa =>
    cases hb : sscanfDate b with
    | none =>
      rw [compareDate_unparsed_right a hb] at h
      rw [compareDate_unparsed_left a hb]
      have := strcmp_antisymm b a
      omega
    | some pb =>
      obtain ⟨y1, m1, d1⟩ := pa
      obtain ⟨y2, m2, d2⟩ := pb
      obtain ⟨ry1, rm1, rd1⟩ := sscanfDate_range ha
      obtain ⟨ry2, rm2, rd2⟩ := sscanfDate_range hb
      rw [compareDate_parsed ha hb] at h
      rw [compareDate_parsed hb ha]
      by_cases hy : y1 = y2
      · by_cases hm : m1 = m2
        · rw [if_neg (not_not.2 hy), if_neg (not_not.2 hm)] at h
          rw [if_neg (not_not.2 hy.symm), if_neg (not_not.2 hm.symm)]
          exact toInt32_sub_swap rd1 rd2 h
        · rw [if_neg (not_not.2 hy), if_pos hm] at h
          rw [if_neg (not_not.2 hy.symm), if_pos (fun e => hm e.symm)]
          exact toInt32_sub_swap rm1 rm2 h
      · rw [if_pos hy] at h
        rw [if_pos (fun e => hy e.symm)]
        exact toInt32_sub_swap ry1 ry2 h

theorem nonDecreasing_cons_cons (a b : Medicine) (rest : List Medicine) :
    nonDecreasing (a :: b :: rest) =
      (decide (compareDate a.expiryDate b.expiryDate ≤ 0) && nonDecreasing (b :: rest)) := rfl

theorem nonDecreasing_tail {a : Medicine} {l : List Medicine}
    (h : nonDecreasing (a :: l) = true) : nonDecreasing l = true := by
  cases l with
  | nil => rfl
  | cons b rest =>
    rw [nonDecreasing_cons_cons, Bool.and_eq_true] at h
    exact h.2

theorem nonDecreasing_cons_insertAfter (x : Medicine) : ∀ (L : List Medicine) (a : Medicine),
    nonDecreasing (a :: L) = true → compareDate a.expiryDate x.expiryDate ≤ 0 →
    nonDecreasing (a :: insertAfter x L) = true := by
  intro L
  induction L with
  | nil =>
    intro a _ hax
    show nonDecreasing (a :: [x]) = true
    rw [nonDecreasing_cons_cons, Bool.and_eq_true]
    exact ⟨by simpa using hax, rfl⟩
  | cons b L ih =>
    intro a hs hax
    rw [nonDecreasing_cons_cons, Bool.and_eq_true] at hs
    rw [insertAfter_cons]
    by_cases hc : compareDate b.expiryDate x.expiryDate ≤ 0
    · rw [if_pos hc, nonDecreasing_cons_cons, Bool.and_eq_true]
      exact ⟨hs.1, ih b hs.2 hc⟩
    · rw [if_neg hc, nonDecreasing_cons_cons, Bool.and_eq_true, nonDecreasing_cons_cons,
        Bool.and_eq_true]
      have hxb : compareDate x.expiryDate b.expiryDate ≤ 0 :=
        compareDate_swap _ _ (by omega)
      exact ⟨by simpa using hax, by simpa using hxb, hs.2⟩

theorem nonDecreasing_insert (L : List Medicine) (x : Medicine)
    (h : nonDecreasing L = true) : nonDecreasing (sortedInsertByExpiry L x) = true := by
  cases L with
  | nil => rfl
  | cons a L =>
    rw [sortedInsert_cons]
    by_cases hc : compareDate x.expiryDate a.expiryDate < 0
    · rw [if_pos hc, nonDecreasing_cons_cons, Bool.and_eq_true]
      exact ⟨by simpa using le_of_lt hc, h⟩
    · rw [if_neg hc]
      exact nonDecreasing_cons_insertAfter x L a h (compareDate_swap _ _ (by omega))

theorem nonDecreasing_foldl : ∀ (l acc : List Medicine), nonDecreasing acc = true →
    nonDecreasing (l.foldl sortedInsertByExpiry acc) = true := by
  intro l
  induction l with
  | nil => intro acc h; exact h
  | cons x l ih => intro acc h; exact ih _ (nonDecreasing_insert acc x h)

/-- For every list, of whatever expiry strings, the list that `sortMedicinesByExpiry` builds
has no record followed by one that compares less. -/
theorem nonDecreasing_sort (l : List Medicine) :
    nonDecreasing (sortMedicinesByExpiry l) = true :=
  nonDecreasing_foldl l [] rfl

theorem nonDecreasing_addMedicine (clk : Clock) (store : List Medicine) (r : Medicine)
    (hs : nonDecreasing store = true) : nonDecreasing (addMedicine clk store r).2 = true := by
  unfold addMedicine
  cases searchMedicine store r.batchNumber with
  | some m => exact hs
  | none => exact nonDecreasing_sort _

theorem nonDecreasing_updateMedicine (clk : Clock) (store : List Medicine) (b : CStr) (q : Int)
    (hs : nonDecreasing store = true) :
    nonDecreasing (updateMedicine clk store b q).2 = true := by
  unfold updateMedicine
  cases searchMedicine store b with
  | some m => exact nonDecreasing_sort _
  | none => exact hs

/-! ## Claim C1 -/

/-- C1. Sort invariant under mutations: when every record of the store has an expiry date of
the form `YYYY-MM-DD` and the listing is non-decreasing under `compareDate` (the empty store
is such a store), the listing after `addMedicine` of a record with such a date, after
`updateMedicine` of any quantity and after `deleteMedicine` is again a listing of such dates
that is non-decreasing; hence the same holds after every finite sequence of these
operations.  For `addMedicine` and `updateMedicine` the listing is non-decreasing again
whatever the expiry strings of the store and of the added record are. -/
theorem sort_invariant_under_mutations :
    (allYMD [] ∧ nonDecreasing [] = true) ∧
    (∀ (clk : Clock) (store : List Medicine) (r : Medicine), allYMD store →
      nonDecreasing store = true → isYMD r.expiryDate = true →
      allYMD (addMedicine clk store r).2 ∧ nonDecreasing (addMedicine clk store r).2 = true) ∧
    (∀ (clk : Clock) (store : List Medicine) (b : CStr) (q : Int), allYMD store →
      nonDecreasing store = true →
      allYMD (updateMedicine clk store b q).2 ∧
        nonDecreasing (updateMedicine clk store b q).2 = true) ∧
    (∀ (store : List Medicine) (b : CStr), allYMD store → nonDecreasing store = true →
      allYMD (deleteMedicine store b).2 ∧ nonDecreasing (deleteMedicine store b).2 = true) ∧
    (∀ (store : List Medicine) (ops : List Op), allYMD store → nonDecreasing store = true →
      (∀ op ∈ ops, opYMD op = true) →
      allYMD (runOps store ops) ∧ nonDecreasing (runOps store ops) = true) ∧
    (∀ (clk : Clock) (store : List Medicine) (r : Medicine), nonDecreasing store = true →
      nonDecreasing (addMedicine clk store r).2 = true) ∧
    (∀ (clk : Clock) (store : List Medicine) (b : CStr) (q : Int),
      nonDecreasing store = true → nonDecreasing (updateMedicine clk store b q).2 = true) :=
  ⟨⟨fun _ he => absurd he (List.not_mem_nil _), rfl⟩, inv_addMedicine, inv_updateMedicine,
    inv_deleteMedicine, fun store ops hg hs hops => inv_runOps ops store hg hs hops,
    nonDecreasing_addMedicine, nonDecreasing_updateMedicine⟩

/-- Witness for C1: two adds (the later date first), an update and a delete, from the empty
store. -/
theorem sort_invariant_under_mutations_witness :
    nonDecreasing (runOps []
      [Op.add (sampleClock 0) (sampleMed "B1" "2099-01-01" 3),
       Op.add (sampleClock 0) (sampleMed "B2" "2030-05-05" 20),
       Op.update (sampleClock 0) "B1".toList 0,
       Op.delete "B2".toList]) = true :=
  (sort_invariant_under_mutations.2.2.2.2.1 [] _ (fun _ he => absurd he (List.not_mem_nil _))
    rfl (by decide)).2


/-! ## Claim C2 -/

set_option maxRecDepth 100000 in
/-- C2 (defect of `loadMedicines`). The store of the scenario lists `B2` (2030-05-05) before
`B1` (2099-01-01), which is non-decreasing; `loadMedicines` on the file that `saveMedicines`
wrote for it puts every record read in front of the list and does not call
`sortMedicinesByExpiry`, so it yields `B1` before `B2`: the loaded listing is not
non-decreasing. -/
theorem load_of_saved_store_not_sorted :
    nonDecreasing sampleStore = true ∧
    (loadMedicines (sampleClock 0) (saveMedicines sampleStore)).map
      (fun l => l.map Medicine.batchNumber) = some ["B1".toList, "B2".toList] ∧
    (loadMedicines (sampleClock 0) (saveMedicines sampleStore)).map nonDecreasing =
      some false := by
  decide

/-! ## Claim C3 -/

theorem nodup_addMedicine (clk : Clock) (store : List Medicine) (r : Medicine)
    (h : (store.map Medicine.batchNumber).Nodup) :
    ((addMedicine clk store r).2.map Medicine.batchNumber).Nodup := by
  cases hs : searchMedicine store r.batchNumber with
  | some m => rw [addMedicine_dup clk store r m hs]; exact h
  | none =>
    rw [addMedicine_fresh clk store r hs]
    have hp := (sort_perm (updateExpiryAndStockStatus clk r :: store)).map Medicine.batchNumber
    rw [hp.nodup_iff]
    simp only [List.map_cons, List.nodup_cons]
    refine ⟨?_, h⟩
    intro hmem
    obtain ⟨t, ht, hb⟩ := List.mem_map.1 hmem
    exact searchMedicine_eq_none.1 hs t ht hb

theorem nodup_addAll : ∀ (adds : List (Clock × Medicine)) (store : List Medicine),
    (store.map Medicine.batchNumber).Nodup →
    ((addAll store adds).map Medicine.batchNumber).Nodup := by
  intro adds
  induction adds with
  | nil => intro store h; exact h
  | cons p adds ih =>
    intro store h
    exact ih _ (nodup_addMedicine p.1 store p.2 h)

/-- C3. Uniqueness under add: when the batch number of `r` already occurs in the store,
`addMedicine` reports `Batch exists` and returns the store as it was; and after every
sequence of `addMedicine` calls from the empty store no two records share a batch number. -/
theorem add_rejects_duplicates_and_keeps_ids_unique :
    (∀ (clk : Clock) (store : List Medicine) (r : Medicine),
      (∃ t ∈ store, t.batchNumber = r.batchNumber) →
      addMedicine clk store r = (Report.batchExists, store)) ∧
    (∀ adds : List (Clock × Medicine), ((addAll [] adds).map Medicine.batchNumber).Nodup) := by
  constructor
  · intro clk store r h
    obtain ⟨m, hm⟩ := searchMedicine_isSome.1 h
    exact addMedicine_dup clk store r m hm
  · intro adds
    exact nodup_addAll adds [] (by simp)

/-- Witness for C3: a second add of batch `B1` to the store of the scenario. -/
theorem add_rejects_duplicates_witness :
    addMedicine (sampleClock 0) sampleStore (sampleMed "B1" "2031-01-01" 9) =
      (Report.batchExists, sampleStore) :=
  add_rejects_duplicates_and_keeps_ids_unique.1 (sampleClock 0) sampleStore
    (sampleMed "B1" "2031-01-01" 9) (by decide)

/-! ## Claim C4 -/

/-- C4. Codec round trip: for a record whose string fields are non-empty, free of `|` and of
newline and within their capacities (31, 63, 63, 63, 15, 15, 23), and whose quantity is an
`int` (negative or not), the `fscanf` of `loadMedicines` applied to the line that
`saveMedicines` writes assigns all 8 fields and gives back the record, with nothing left
unread. -/
theorem codec_round_trip (r : Medicine) (h : recordOK r) :
    fscanfMedicine (saveMedicines [r]) = some (r, []) := by
  have := fscanfMedicine_printLine r [] (scanOK_of_recordOK h)
  simpa [saveMedicines, skipSpace] using this

/-- Witness for C4: a record with a negative quantity. -/
theorem codec_round_trip_witness :
    fscanfMedicine (saveMedicines [sampleMed "B7" "2031-12-31" (-45)]) =
      some (sampleMed "B7" "2031-12-31" (-45), []) :=
  codec_round_trip (sampleMed "B7" "2031-12-31" (-45)) (by decide)

/-! ## Claims C5 and C6 -/

theorem expiryInstant_eq_some {clk : Clock} {d : CStr} {t : Int}
    (h : expiryInstant clk d = some t) :
    ∃ y mon day, sscanfDate d = some (y, mon, day) ∧
      t = clk.mktime (toInt32 (y - 1900)) (toInt32 (mon - 1)) day := by
  unfold expiryInstant at h
  split at h
  · rename_i y mon day hp
    simp only [Option.some.injEq] at h
    exact ⟨y, mon, day, hp, h.symm⟩
  · cases h

theorem expiryInstant_eq_none {clk : Clock} {d : CStr} (h : expiryInstant clk d = none) :
    sscanfDate d = none := by
  unfold expiryInstant at h
  split at h
  · cases h
  · rename_i hp; exact hp

theorem deriveStatus_expired (clk : Clock) (d : CStr) (q t : Int)
    (h : expiryInstant clk d = some t) (ht : t < clk.now) : deriveStatus clk d q = EXPIRED := by
  obtain ⟨y, mon, day, hp, rfl⟩ := expiryInstant_eq_some h
  unfold deriveStatus
  rw [hp]
  simp only
  rw [if_pos (by omega)]

theorem deriveStatus_near (clk : Clock) (d : CStr) (q t : Int)
    (h : expiryInstant clk d = some t) (h1 : clk.now ≤ t) (h2 : t - clk.now ≤ 30 * 86400) :
    deriveStatus clk d q = NEAR_EXPIRY := by
  obtain ⟨y, mon, day, hp, rfl⟩ := expiryInstant_eq_some h
  unfold deriveStatus
  rw [hp]
  simp only
  rw [if_neg (by omega), if_pos (by omega)]

theorem deriveStatus_stock (clk : Clock) (d : CStr) (q : Int)
    (h : expiryInstant clk d = none ∨ ∃ t, expiryInstant clk d = some t ∧ 30 * 86400 < t - clk.now) :
    deriveStatus clk d q =
      if q ≤ 0 then OUT_OF_STOCK else if q ≤ 10 then LOW_STOCK else IN_STOCK := by
  rcases h with h | ⟨t, h, ht⟩
  · unfold deriveStatus
    rw [expiryInstant_eq_none h]
  · obtain ⟨y, mon, day, hp, rfl⟩ := expiryInstant_eq_some h
    unfold deriveStatus
    rw [hp]
    simp only
    rw [if_neg (by omega), if_neg (by omega)]

theorem deriveStatus_label (clk : Clock) (d : CStr) (q : Int) :
    deriveStatus clk d q = EXPIRED ∨ deriveStatus clk d q = NEAR_EXPIRY ∨
    deriveStatus clk d q = OUT_OF_STOCK ∨ deriveStatus clk d q = LOW_STOCK ∨
    deriveStatus clk d q = IN_STOCK := by
  unfold deriveStatus
  cases sscanfDate d with
  | none => simp only; split_ifs <;> simp
  | some p =>
    obtain ⟨y, mon, day⟩ := p
    simp only
    split_ifs <;> simp

/-- C5. Status precedence: when the expiry date parses as three integers and its instant
lies before `now`, the derived status is `EXPIRED`; when it lies from 0 up to 30 days
(30 * 86400 seconds, inclusive) after `now`, the derived status is `NEAR EXPIRY`; both for
every quantity, so the result does not depend on the quantity. -/
theorem status_precedence (clk : Clock) (d : CStr) (t : Int)
    (h : expiryInstant clk d = some t) :
    (t < clk.now → ∀ q : Int, deriveStatus clk d q = EXPIRED) ∧
    (clk.now ≤ t → t - clk.now ≤ 30 * 86400 → ∀ q : Int, deriveStatus clk d q = NEAR_EXPIRY) ∧
    ((t < clk.now ∨ t - clk.now ≤ 30 * 86400) →
      ∀ q1 q2 : Int, deriveStatus clk d q1 = deriveStatus clk d q2) := by
  refine ⟨fun ht q => deriveStatus_expired clk d q t h ht,
    fun h1 h2 q => deriveStatus_near clk d q t h h1 h2, ?_⟩
  intro hc q1 q2
  by_cases ht : t < clk.now
  · rw [deriveStatus_expired clk d q1 t h ht, deriveStatus_expired clk d q2 t h ht]
  · have h2 : t - clk.now ≤ 30 * 86400 := by
      rcases hc with hc | hc
      · exact absurd hc ht
      · exact hc
    rw [deriveStatus_near clk d q1 t h (by omega) h2,
      deriveStatus_near clk d q2 t h (by omega) h2]

/-- Witness for C5: quantity 5 with an expiry one day before `now` is `EXPIRED`, and
quantity 0 with an expiry 15 days after `now` is `NEAR EXPIRY`. -/
theorem status_precedence_witness :
    deriveStatus (sampleClock (sampleInstant + 86400)) "2024-01-05".toList 5 = EXPIRED ∧
    deriveStatus (sampleClock (sampleInstant - 15 * 86400)) "2024-01-05".toList 0 =
      NEAR_EXPIRY :=
  ⟨(status_precedence (sampleClock (sampleInstant + 86400)) "2024-01-05".toList sampleInstant
      (by decide)).1 (by decide) 5,
   (status_precedence (sampleClock (sampleInstant - 15 * 86400)) "2024-01-05".toList
      sampleInstant (by decide)).2.1 (by decide) (by decide) 0⟩

/-- C6. Stock thresholds: when the expiry date does not parse as three integers, or its
instant lies more than 30 days after `now`, the derived status is `OUT OF STOCK` exactly
when the quantity is at most 0, `LOW STOCK` exactly when it is from 1 to 10, and `IN STOCK`
exactly when it is at least 11; and the derived status is always one of the five labels. -/
theorem stock_thresholds :
    (∀ (clk : Clock) (d : CStr) (q : Int),
      (expiryInstant clk d = none ∨
        ∃ t, expiryInstant clk d = some t ∧ 30 * 86400 < t - clk.now) →
      (deriveStatus clk d q = OUT_OF_STOCK ↔ q ≤ 0) ∧
      (deriveStatus clk d q = LOW_STOCK ↔ 1 ≤ q ∧ q ≤ 10) ∧
      (deriveStatus clk d q = IN_STOCK ↔ 11 ≤ q)) ∧
    (∀ (clk : Clock) (d : CStr) (q : Int),
      deriveStatus clk d q = EXPIRED ∨ deriveStatus clk d q = NEAR_EXPIRY ∨
      deriveStatus clk d q = OUT_OF_STOCK ∨ deriveStatus clk d q = LOW_STOCK ∨
      deriveStatus clk d q = IN_STOCK) := by
  refine ⟨?_, deriveStatus_label⟩
  intro clk d q h
  rw [deriveStatus_stock clk d q h]
  have e1 : OUT_OF_STOCK ≠ LOW_STOCK := by decide
  have e2 : OUT_OF_STOCK ≠ IN_STOCK := by decide
  have e3 : LOW_STOCK ≠ IN_STOCK := by decide
  by_cases h0 : q ≤ 0
  · rw [if_pos h0]
    refine ⟨by simp [h0], ?_, ?_⟩
    · constructor
      · intro e; exact absurd e e1
      · intro e; omega
    · constructor
      · intro e; exact absurd e e2
      · intro e; omega
  · rw [if_neg h0]
    by_cases h10 : q ≤ 10
    · rw [if_pos h10]
      refine ⟨?_, ?_, ?_⟩
      · constructor
        · intro e; exact absurd e.symm e1
        · intro e; omega
      · constructor
        · intro _; omega
        · intro _; rfl
      · constructor
        · intro e; exact absurd e e3
        · intro e; omega
    · rw [if_neg h10]
      refine ⟨?_, ?_, ?_⟩
      · constructor
        · intro e; exact absurd e.symm e2
        · intro e; omega
      · constructor
        · intro e; exact absurd e.symm e3
        · intro e; omega
      · constructor
        · intro _; omega
        · intro _; rfl

/-- Witness for C6: an expiry date that does not parse and a negative quantity. -/
theorem stock_thresholds_witness :
    deriveStatus (sampleClock 0) "soon".toList (-4) = OUT_OF_STOCK ↔ (-4 : Int) ≤ 0 :=
  (stock_thresholds.1 (sampleClock 0) "soon".toList (-4) (Or.inl (by decide))).1


/-! ## Claim C7 -/

set_option maxRecDepth 100000 in
/-- C7, counterexample. A third line with nine fields is not a decode failure: the last
conversion `%23[^\n]` takes `IN STOCK|extra` as the status, the call returns 8, and the load
goes on with the next line, so four records are loaded.  A third line with five fields is
completed by the line after it (a scan set other than the last reads across the newline), so
three records are loaded. -/
theorem load_does_not_count_fields :
    (loadMedicines (sampleClock 0) fileNineFields).map (fun l => l.map Medicine.batchNumber) =
      some ["B4".toList, "B3".toList, "B2".toList, "B1".toList] ∧
    (loadMedicines (sampleClock 0) fileFiveFields).map (fun l => l.map Medicine.batchNumber) =
      some ["B3".toList, "B2".toList, "B1".toList] ∧
    (loadMedicines (sampleClock 0) fileFiveFields).map
      (fun l => l.map Medicine.manufacturedDate) =
      some ["2020-01-01\nX".toList, "2020-01-01".toList, "2020-01-01".toList] := by
  decide

/-- C7, amended. For a file that consists of `n` well-formed lines (as `saveMedicines` writes
them for records with `lineOK`) followed by a remainder on which the scan pattern of
`loadMedicines` does not assign all 8 fields (read as it stands, and read after leading white
space is skipped), `loadMedicines` returns, and yields exactly the `n` records of these
lines, the last line first, each with its status recomputed; nothing of the remainder is
loaded. -/
theorem load_truncates_at_failed_scan (clk : Clock) (rs : List Medicine) (rest : CStr)
    (h : ∀ r ∈ rs, lineOK r) (h1 : fscanfMedicine rest = none)
    (h2 : fscanfMedicine (skipSpace rest) = none) :
    loadMedicines clk (saveMedicines rs ++ rest) =
      some (updateAllMedicineStatuses clk rs.reverse) :=
  loadMedicines_lines clk rs rest (fun r hr => lineScanOK_of_lineOK (h r hr)) h1 h2

set_option maxRecDepth 100000 in
/-- Witness for C7: two well-formed lines and a third, last line with three fields. -/
theorem load_truncates_at_failed_scan_witness :
    loadMedicines (sampleClock 0) fileThreeFields =
      some (updateAllMedicineStatuses (sampleClock 0)
        [sampleMed "B1" "2099-01-01" 3, sampleMed "B2" "2030-05-05" 20].reverse) :=
  load_truncates_at_failed_scan (sampleClock 0)
    [sampleMed "B1" "2099-01-01" 3, sampleMed "B2" "2030-05-05" 20] "B3|Brand|Gen\n".toList
    (by decide) (by decide) (by decide)

/-! ## Claim C8 -/

/-- C8. Tie-break on add: for a store sorted ascending by expiry with dates of the form
`YYYY-MM-DD` and a new record `r` with such a date and a fresh batch number, `addMedicine`
puts `r` (with its derived status) at the first position whose occupant has an expiry not
less than that of `r`: the records before it are the leading records with a strictly earlier
expiry, every record after it has an equal or later expiry, and the existing records keep
their order. -/
theorem add_position (clk : Clock) (store : List Medicine) (r : Medicine)
    (hg : allYMD store) (hs : nonDecreasing store = true) (hr : isYMD r.expiryDate = true)
    (h : searchMedicine store r.batchNumber = none) :
    addMedicine clk store r =
      (Report.added,
        store.takeWhile (fun e => decide (compareDate e.expiryDate r.expiryDate < 0)) ++
        updateExpiryAndStockStatus clk r ::
        store.dropWhile (fun e => decide (compareDate e.expiryDate r.expiryDate < 0))) ∧
    store.takeWhile (fun e => decide (compareDate e.expiryDate r.expiryDate < 0)) ++
      store.dropWhile (fun e => decide (compareDate e.expiryDate r.expiryDate < 0)) = store ∧
    (∀ e ∈ store.takeWhile (fun e => decide (compareDate e.expiryDate r.expiryDate < 0)),
      compareDate e.expiryDate r.expiryDate < 0) ∧
    (∀ e ∈ store.dropWhile (fun e => decide (compareDate e.expiryDate r.expiryDate < 0)),
      compareDate r.expiryDate e.expiryDate ≤ 0 ∧ ¬ compareDate e.expiryDate r.expiryDate < 0) ∧
    (∀ e ∈ store, compareDate e.expiryDate r.expiryDate < 0 →
      e ∈ store.takeWhile (fun e => decide (compareDate e.expiryDate r.expiryDate < 0))) := by
  have hsd := smallDates_of_allYMD hg
  have hks := keySorted_of_nonDecreasing store hsd hs
  have hrs := smallDate_of_isYMD hr
  have hge := dropWhile_ge r hrs store hsd hks
  have hdrop : ∀ e ∈ store.dropWhile
      (fun e => decide (compareDate e.expiryDate r.expiryDate < 0)),
      compareDate r.expiryDate e.expiryDate ≤ 0 ∧ ¬ compareDate e.expiryDate r.expiryDate < 0 := by
    intro e he
    have hes := hsd e ((List.dropWhile_sublist _).subset he)
    have := hge e he
    rw [compareDate_le_iff hrs hes, compareDate_lt_iff hes hrs]
    omega
  refine ⟨addMedicine_fresh_sorted clk store r hg hs hr h,
    List.takeWhile_append_dropWhile _ _, ?_, hdrop, ?_⟩
  · intro e he
    simpa using List.mem_takeWhile_imp he
  · intro e he hlt
    have hsplit := List.takeWhile_append_dropWhile
      (fun e : Medicine => decide (compareDate e.expiryDate r.expiryDate < 0)) store
    rw [← hsplit] at he
    rcases List.mem_append.1 he with h1 | h1
    · exact h1
    · exact absurd hlt (hdrop e h1).2

set_option maxRecDepth 100000 in
/-- Witness for C8: a record with the expiry date of `B2` is added to the store of the
scenario and comes before `B2`. -/
theorem add_position_witness :
    (addMedicine (sampleClock 0) sampleStore (sampleMed "B5" "2030-05-05" 1)).2.map
      Medicine.batchNumber = ["B5".toList, "B2".toList, "B1".toList] := by
  rw [(add_position (sampleClock 0) sampleStore (sampleMed "B5" "2030-05-05" 1)
    (by decide) (by decide) (by decide) (by decide)).1]
  decide


/-! ## Claim C9 -/

/-- C9, counterexample. With parsed and unparsed strings mixed the comparator is not
transitive: `10-1-1` is not after `5` and `5` is not after `9-1-1` (both by `strcmp`, since
`5` does not parse), but `10-1-1` is after `9-1-1` (by the years).  And when the subtraction
of the years overflows the sign is not antisymmetric: each of `2147483647-1-1` and `-1-1-1`
compares less than the other. -/
theorem compareDate_not_total :
    ¬ (compareDate "10-1-1".toList "5".toList ≤ 0 → compareDate "5".toList "9-1-1".toList ≤ 0 →
        compareDate "10-1-1".toList "9-1-1".toList ≤ 0) ∧
    ¬ (compareDate "2147483647-1-1".toList "-1-1-1".toList < 0 ↔
        compareDate "-1-1-1".toList "2147483647-1-1".toList > 0) := by
  decide

theorem compareDate_antisymm_aux {a b : CStr}
    (ha : smallDate a ∨ sscanfDate a = none) (hb : smallDate b ∨ sscanfDate b = none) :
    (compareDate a b < 0 ↔ compareDate b a > 0) ∧
    (compareDate a b = 0 ↔ compareDate b a = 0) := by
  rcases ha with ha | ha
  · rcases hb with hb | hb
    · rw [compareDate_lt_iff ha hb, compareDate_eq_iff ha hb, compareDate_eq_iff hb ha]
      have h1 := compareDate_le_iff hb ha
      constructor
      · constructor <;> intro h <;> omega
      · constructor <;> intro h <;> omega
    · rw [compareDate_unparsed_right a hb, compareDate_unparsed_left a hb]
      exact strcmp_antisymm a b
  · rw [compareDate_unparsed_left b ha, compareDate_unparsed_right b ha]
    exact strcmp_antisymm a b

theorem compareDate_trans_small {a b c : CStr} (ha : smallDate a) (hb : smallDate b)
    (hc : smallDate c) (h1 : compareDate a b ≤ 0) (h2 : compareDate b c ≤ 0) :
    compareDate a c ≤ 0 := by
  rw [compareDate_le_iff ha hb] at h1
  rw [compareDate_le_iff hb hc] at h2
  rw [compareDate_le_iff ha hc]
  omega

theorem compareDate_eq_strcmp {a b : CStr} (h : sscanfDate a = none ∨ sscanfDate b = none) :
    compareDate a b = strcmp a b := by
  rcases h with h | h
  · exact compareDate_unparsed_left b h
  · exact compareDate_unparsed_right a h

/-- C9, amended. The sign of `compareDate` is antisymmetric on all strings that either do not
parse or parse into three integers of magnitude below `2^30` (every date of the form
`YYYY-MM-DD` is one); it is transitive on three such strings when all three parse, and also
when at most one of the three parses (every comparison is then made by `strcmp`). -/
theorem compareDate_order_on_uniform_inputs :
    (∀ a b : CStr, (smallDate a ∨ sscanfDate a = none) → (smallDate b ∨ sscanfDate b = none) →
      (compareDate a b < 0 ↔ compareDate b a > 0) ∧
      (compareDate a b = 0 ↔ compareDate b a = 0)) ∧
    (∀ a b c : CStr, smallDate a → smallDate b → smallDate c →
      compareDate a b ≤ 0 → compareDate b c ≤ 0 → compareDate a c ≤ 0) ∧
    (∀ a b c : CStr,
      ((sscanfDate a = none ∧ sscanfDate b = none) ∨ (sscanfDate a = none ∧ sscanfDate c = none) ∨
        (sscanfDate b = none ∧ sscanfDate c = none)) →
      compareDate a b ≤ 0 → compareDate b c ≤ 0 → compareDate a c ≤ 0) ∧
    (∀ d : CStr, isYMD d = true → smallDate d) := by
  refine ⟨fun a b ha hb => compareDate_antisymm_aux ha hb,
    fun a b c ha hb hc => compareDate_trans_small ha hb hc, ?_,
    fun d hd => smallDate_of_isYMD hd⟩
  intro a b c h h1 h2
  have eab : compareDate a b = strcmp a b := by
    apply compareDate_eq_strcmp; rcases h with h | h | h <;> simp [h.1]
  have ebc : compareDate b c = strcmp b c := by
    apply compareDate_eq_strcmp; rcases h with h | h | h <;> simp [h.1, h.2]
  have eac : compareDate a c = strcmp a c := by
    apply compareDate_eq_strcmp; rcases h with h | h | h <;> simp [h.1, h.2]
  rw [eab] at h1
  rw [ebc] at h2
  rw [eac]
  exact strcmp_trans a b c h1 h2

/-- Witness for C9: three dates of the form `YYYY-MM-DD`. -/
theorem compareDate_order_witness :
    compareDate "2024-02-28".toList "2030-05-05".toList ≤ 0 :=
  compareDate_order_on_uniform_inputs.2.1 "2024-02-28".toList "2024-03-01".toList
    "2030-05-05".toList
    (compareDate_order_on_uniform_inputs.2.2.2 _ (by decide))
    (compareDate_order_on_uniform_inputs.2.2.2 _ (by decide))
    (compareDate_order_on_uniform_inputs.2.2.2 _ (by decide)) (by decide) (by decide)

/-! ## Claim C10 -/

theorem deleteMedicine_absent (store : List Medicine) (b : CStr)
    (h : ∀ t ∈ store, t.batchNumber ≠ b) : deleteMedicine store b = (Report.notFound, store) := by
  unfold deleteMedicine
  rw [unlinkFirst_eq_none.2 h]

theorem deleteMedicine_present (store : List Medicine) (b : CStr)
    (h : ∃ t ∈ store, t.batchNumber = b) :
    ∃ A x B, store = A ++ x :: B ∧ x.batchNumber = b ∧ (∀ t ∈ A, t.batchNumber ≠ b) ∧
      deleteMedicine store b = (Report.deleted, A ++ B) := by
  obtain ⟨A, x, B, h1, h2, h3⟩ := first_match_split h
  refine ⟨A, x, B, h1, h2, h3, ?_⟩
  unfold deleteMedicine
  rw [h1, unlinkFirst_split b A B x h2 h3]

/-- C10. Delete contract: when no record has batch number `b`, `deleteMedicine` reports
`Not found` and returns the store as it was; when some record has it, the result is the store
with the first such record removed (the records before and after it unchanged and in the
same order), one record shorter; and when batch numbers were unique, `searchMedicine` for `b`
fails afterwards. -/
theorem delete_contract :
    (∀ (store : List Medicine) (b : CStr), (∀ t ∈ store, t.batchNumber ≠ b) →
      deleteMedicine store b = (Report.notFound, store)) ∧
    (∀ (store : List Medicine) (b : CStr), (∃ t ∈ store, t.batchNumber = b) →
      ∃ A x B, store = A ++ x :: B ∧ x.batchNumber = b ∧ (∀ t ∈ A, t.batchNumber ≠ b) ∧
        deleteMedicine store b = (Report.deleted, A ++ B) ∧
        (deleteMedicine store b).2.length + 1 = store.length) ∧
    (∀ (store : List Medicine) (b : CStr), (∃ t ∈ store, t.batchNumber = b) →
      (store.map Medicine.batchNumber).Nodup →
      searchMedicine (deleteMedicine store b).2 b = none) := by
  refine ⟨deleteMedicine_absent, ?_, ?_⟩
  · intro store b h
    obtain ⟨A, x, B, h1, h2, h3, h4⟩ := deleteMedicine_present store b h
    refine ⟨A, x, B, h1, h2, h3, h4, ?_⟩
    rw [h4, h1]; simp; omega
  · intro store b h hn
    obtain ⟨A, x, B, h1, h2, h3, h4⟩ := deleteMedicine_present store b h
    rw [h4]
    apply searchMedicine_eq_none.2
    intro t ht
    rcases List.mem_append.1 ht with ht | ht
    · exact h3 t ht
    · intro hb
      rw [h1] at hn
      simp only [List.map_append, List.map_cons] at hn
      have h5 := (List.nodup_cons.1 (List.nodup_append.1 hn).2.1).1
      apply h5
      rw [h2, ← hb]
      exact List.mem_map_of_mem _ ht

set_option maxRecDepth 100000 in
/-- Witness for C10: deleting `B2` from the store of the scenario leaves `B1`. -/
theorem delete_contract_witness :
    searchMedicine (deleteMedicine sampleStore "B2".toList).2 "B2".toList = none :=
  delete_contract.2.2 sampleStore "B2".toList (by decide) (by decide)


/-! ## Claim C11 -/

theorem scanSet_overlong (w : Nat) (stop : Char) (f rest : CStr) (hw : 0 < w)
    (hs : stop ∉ f) (hl : w < f.length) :
    scanSet w stop (f ++ stop :: rest) = some (f.take w, f.drop w ++ stop :: rest) := by
  have htake : (f ++ stop :: rest).take w = f.take w :=
    List.take_append_of_le_length (le_of_lt hl)
  have htw : (f.take w).takeWhile (fun c => c ≠ stop) = f.take w := by
    rw [List.takeWhile_eq_self_iff]
    intro c hc
    have : c ≠ stop := fun e => hs (e ▸ (List.take_subset _ _ hc))
    simpa using this
  have hne : f.take w ≠ [] := by
    intro e
    have := congrArg List.length e
    simp only [List.length_take, List.length_nil] at this
    omega
  have hlen : (f.take w).length = w := by
    simp only [List.length_take]; omega
  unfold scanSet
  simp only [htake, htw, hne, if_false, hlen]
  rw [List.drop_append_of_le_length (le_of_lt hl)]

theorem matchLit_overlong (w : Nat) (stop : Char) (f rest : CStr) (hs : stop ∉ f)
    (hl : w < f.length) : matchLit stop (f.drop w ++ stop :: rest) = none := by
  cases hd : f.drop w with
  | nil =>
    have := congrArg List.length hd
    simp only [List.length_drop, List.length_nil] at this
    omega
  | cons c t =>
    have hc : c ∈ f := List.drop_subset w f (by rw [hd]; simp)
    have : c ≠ stop := fun e => hs (e ▸ hc)
    simp [matchLit, this]

theorem fscanfMedicine_overlong (r : Medicine) (rest : CStr) (h : overlongRecord r) :
    fscanfMedicine (printLine r ++ rest) = none := by
  obtain ⟨⟨a1, a2⟩, ⟨b1, b2⟩, ⟨c1, c2⟩, ⟨d1, d2⟩, ⟨e1, e2⟩, ⟨f1, f2⟩, hlong⟩ := h
  rw [printLine_append]
  unfold fscanfMedicine
  by_cases ha : r.batchNumber.length ≤ 31
  · simp only [scanSet_field _ _ _ _ a1 a2 ha, matchLit_cons]
    by_cases hb : r.brandName.length ≤ 63
    · simp only [scanSet_field _ _ _ _ b1 b2 hb, matchLit_cons]
      by_cases hc : r.genericName.length ≤ 63
      · simp only [scanSet_field _ _ _ _ c1 c2 hc, matchLit_cons]
        by_cases hd : r.manufacturer.length ≤ 63
        · simp only [scanSet_field _ _ _ _ d1 d2 hd, matchLit_cons]
          by_cases he : r.manufacturedDate.length ≤ 15
          · simp only [scanSet_field _ _ _ _ e1 e2 he, matchLit_cons]
            have hf : 15 < r.expiryDate.length := by omega
            simp only [scanSet_overlong 15 '|' _ _ (by decide) f2 hf,
              matchLit_overlong 15 '|' _ _ f2 hf]
          · simp only [scanSet_overlong 15 '|' _ _ (by decide) e2 (not_le.1 he),
              matchLit_overlong 15 '|' _ _ e2 (not_le.1 he)]
        · simp only [scanSet_overlong 63 '|' _ _ (by decide) d2 (not_le.1 hd),
            matchLit_overlong 63 '|' _ _ d2 (not_le.1 hd)]
      · simp only [scanSet_overlong 63 '|' _ _ (by decide) c2 (not_le.1 hc),
          matchLit_overlong 63 '|' _ _ c2 (not_le.1 hc)]
    · simp only [scanSet_overlong 63 '|' _ _ (by decide) b2 (not_le.1 hb),
        matchLit_overlong 63 '|' _ _ b2 (not_le.1 hb)]
  · simp only [scanSet_overlong 31 '|' _ _ (by decide) a2 (not_le.1 ha),
      matchLit_overlong 31 '|' _ _ a2 (not_le.1 ha)]

theorem fscanfMedicine_overlongStatus (r : Medicine) (rest : CStr) (h : overlongStatus r) :
    fscanfMedicine (printLine r ++ rest) =
      some ({ r with status := r.status.take 23 },
        skipSpace (r.status.drop 23 ++ '\n' :: rest)) := by
  obtain ⟨⟨a1, a2, _, a3⟩, ⟨b1, b2, _, b3⟩, ⟨c1, c2, _, c3⟩, ⟨d1, d2, _, d3⟩, ⟨e1, e2, _, e3⟩,
    ⟨f1, f2, _, f3⟩, g2, g3, hq1, hq2⟩ := h
  rw [printLine_append]
  unfold fscanfMedicine
  simp only [scanSet_field _ _ _ _ a1 a2 a3, scanSet_field _ _ _ _ b1 b2 b3,
    scanSet_field _ _ _ _ c1 c2 c3, scanSet_field _ _ _ _ d1 d2 d3,
    scanSet_field _ _ _ _ e1 e2 e3, scanSet_field _ _ _ _ f1 f2 f3,
    scanSet_overlong 23 '\n' _ _ (by decide) g2 g3, matchLit_cons,
    scanInt_printInt_bar _ _ hq1 hq2]

set_option maxRecDepth 100000 in
/-- C11, counterexample. For the line with a batch number of 40 characters the `fscanf` of
`loadMedicines` does not succeed: `%31[^|]` stops after 31 characters, the literal `|` of the
format meets the 32nd character of the batch number, and the call assigns one field only.
The load of a file with a well-formed line, this line and a further well-formed line ends at
the long line and keeps the first record only. -/
theorem overlong_field_is_rejected :
    fscanfMedicine (printLine longBatchMed) = none ∧
    (loadMedicines (sampleClock 0) fileLongBatch).map (fun l => l.map Medicine.batchNumber) =
      some ["B1".toList] := by
  decide

/-- C11, amended. For a line with 8 `|`-separated fields in which one of the six string
fields in front of the quantity (batch number, brand name, generic name, manufacturer, the
two dates) is longer than its capacity, the scan set stops at the capacity, the literal `|`
that follows in the format does not match, and the `fscanf` of `loadMedicines` fails: the
line is rejected, not truncated, and a load that has read `n` well-formed lines before it
ends there with these `n` records.  Only an over-long status (the last field) is cut: the
`fscanf` succeeds with the first 23 characters as status, the other fields as written, and
the rest of the status stays in the input for the next `fscanf`. -/
theorem overlong_field_ends_load :
    (∀ (r : Medicine) (rest : CStr), overlongRecord r →
      fscanfMedicine (printLine r ++ rest) = none) ∧
    (∀ (clk : Clock) (rs : List Medicine) (r : Medicine) (rest : CStr),
      (∀ x ∈ rs, lineOK x) → overlongRecord r → skipSpace r.batchNumber = r.batchNumber →
      loadMedicines clk (saveMedicines rs ++ (printLine r ++ rest)) =
        some (updateAllMedicineStatuses clk rs.reverse)) ∧
    (∀ (r : Medicine) (rest : CStr), overlongStatus r →
      fscanfMedicine (printLine r ++ rest) =
        some ({ r with status := r.status.take 23 },
          skipSpace (r.status.drop 23 ++ '\n' :: rest))) := by
  refine ⟨fscanfMedicine_overlong, ?_, fscanfMedicine_overlongStatus⟩
  intro clk rs r rest hrs hr hsp
  have h1 := fscanfMedicine_overlong r rest hr
  have hskip : skipSpace (printLine r ++ rest) = printLine r ++ rest := by
    rw [printLine_append]
    cases hb : r.batchNumber with
    | nil => exact absurd hb hr.1.1
    | cons c t =>
      rw [hb] at hsp
      unfold skipSpace at hsp ⊢
      simp only [List.cons_append, List.dropWhile_cons] at hsp ⊢
      split_ifs at hsp ⊢ with hc
      · exfalso
        have := (List.dropWhile_sublist isspace (l := t)).length_le
        rw [hsp] at this
        simp at this
      · rfl
  exact loadMedicines_lines clk rs _ (fun x hx => lineScanOK_of_lineOK (hrs x hx)) h1
    (by rw [hskip]; exact h1)

set_option maxRecDepth 100000 in
/-- Witness for C11: the line with a batch number of 40 characters. -/
theorem overlong_field_ends_load_witness :
    fscanfMedicine (printLine longBatchMed ++ []) = none :=
  overlong_field_ends_load.1 longBatchMed [] (by decide)

/-! ## Claim C12 -/

/-- C12, counterexample. With an expiry instant 30 days and 12 hours after `now` and quantity
20 the derived status is `IN STOCK`, not `NEAR EXPIRY`: the program compares the time
difference in days as a fraction (30.5) with 30 and does not truncate it. -/
theorem status_days_not_truncated :
    expiryInstant (sampleClock (sampleInstant - (30 * 86400 + 43200))) "2024-01-05".toList =
      some ((sampleInstant - (30 * 86400 + 43200)) + (30 * 86400 + 43200)) ∧
    deriveStatus (sampleClock (sampleInstant - (30 * 86400 + 43200))) "2024-01-05".toList 20 =
      IN_STOCK ∧
    deriveStatus (sampleClock (sampleInstant - (30 * 86400 + 43200))) "2024-01-05".toList 20 ≠
      NEAR_EXPIRY := by
  decide

/-- C12, amended. For every parseable expiry date and every `now`, rules 1 and 2 are applied
to the time difference itself, not to a truncated day count: the status is `EXPIRED` exactly
when the expiry instant lies before `now`, `NEAR EXPIRY` exactly when it lies from 0 up to
30 * 86400 seconds after `now`, and otherwise the stock rule decides; so an expiry instant 30
days and 12 hours after `now` gives the stock status for every quantity. -/
theorem status_uses_exact_difference (clk : Clock) (d : CStr) (t q : Int)
    (h : expiryInstant clk d = some t) :
    (deriveStatus clk d q = EXPIRED ↔ t < clk.now) ∧
    (deriveStatus clk d q = NEAR_EXPIRY ↔ clk.now ≤ t ∧ t - clk.now ≤ 30 * 86400) ∧
    (30 * 86400 < t - clk.now →
      deriveStatus clk d q =
        if q ≤ 0 then OUT_OF_STOCK else if q ≤ 10 then LOW_STOCK else IN_STOCK) := by
  have e1 : EXPIRED ≠ NEAR_EXPIRY := by decide
  have e2 : OUT_OF_STOCK ≠ EXPIRED := by decide
  have e3 : LOW_STOCK ≠ EXPIRED := by decide
  have e4 : IN_STOCK ≠ EXPIRED := by decide
  have e5 : OUT_OF_STOCK ≠ NEAR_EXPIRY := by decide
  have e6 : LOW_STOCK ≠ NEAR_EXPIRY := by decide
  have e7 : IN_STOCK ≠ NEAR_EXPIRY := by decide
  have hstock : 30 * 86400 < t - clk.now →
      deriveStatus clk d q =
        if q ≤ 0 then OUT_OF_STOCK else if q ≤ 10 then LOW_STOCK else IN_STOCK :=
    fun ht => deriveStatus_stock clk d q (Or.inr ⟨t, h, ht⟩)
  refine ⟨?_, ?_, hstock⟩
  · constructor
    · intro hs
      by_contra hn
      by_cases h30 : t - clk.now ≤ 30 * 86400
      · rw [deriveStatus_near clk d q t h (by omega) h30] at hs
        exact e1 hs.symm
      · rw [hstock (by omega)] at hs
        split_ifs at hs
        · exact e2 hs
        · exact e3 hs
        · exact e4 hs
    · exact deriveStatus_expired clk d q t h
  · constructor
    · intro hs
      by_contra hn
      by_cases hlt : t < clk.now
      · rw [deriveStatus_expired clk d q t h hlt] at hs
        exact e1 hs
      · rw [hstock (by omega)] at hs
        split_ifs at hs
        · exact e5 hs
        · exact e6 hs
        · exact e7 hs
    · intro ⟨h1, h2⟩
      exact deriveStatus_near clk d q t h h1 h2

/-- Witness for C12: expiry 2024-01-05, `now` 15 days earlier, quantity 0. -/
theorem status_uses_exact_difference_witness :
    deriveStatus (sampleClock (sampleInstant - 15 * 86400)) "2024-01-05".toList 0 =
      NEAR_EXPIRY :=
  (status_uses_exact_difference (sampleClock (sampleInstant - 15 * 86400))
    "2024-01-05".toList sampleInstant 0 (by decide)).2.1.2 (by decide)

/-! ## Claim C13 -/

/-- C13 (defect of `compareDate`). Both `2147483647-1-1` and `-1-1-1` parse as three
integers, and the first triple is the greater one (its year is greater); `compareDate`
returns `y1 - y2`, which overflows the `int` range and comes out as `-2147483648`: the sign
says less. -/
theorem compareDate_overflow :
    sscanfDate "2147483647-1-1".toList = some (2147483647, 1, 1) ∧
    sscanfDate "-1-1-1".toList = some (-1, 1, 1) ∧
    compareDate "2147483647-1-1".toList "-1-1-1".toList = -2147483648 := by
  decide


/-! ## Claim C14 -/

set_option maxRecDepth 100000 in
/-- C14 (defect of `loadMedicines`). A file in which two well-formed lines carry the batch
number `B1` is loaded with both records: `loadMedicines` never calls `searchMedicine`, the
check that `addMedicine` makes before it inserts a record. -/
theorem load_keeps_duplicate_ids :
    (loadMedicines (sampleClock 0) fileTwiceB1).map (fun l => l.map Medicine.batchNumber) =
      some ["B1".toList, "B1".toList] ∧
    (loadMedicines (sampleClock 0) fileTwiceB1).map
      (fun l => decide (l.map Medicine.batchNumber).Nodup) = some false := by
  decide

theorem updateAll_batchNumbers (clk : Clock) (l : List Medicine) :
    (updateAllMedicineStatuses clk l).map Medicine.batchNumber = l.map Medicine.batchNumber := by
  unfold updateAllMedicineStatuses
  rw [List.map_map]
  rfl

theorem fscanfMedicine_nil : fscanfMedicine [] = none := by decide

/-- The store loaded from a file of well-formed lines carries exactly the batch numbers of
the lines, last line first; it has unique batch numbers exactly when the lines have. -/
theorem load_keeps_ids_of_lines (clk : Clock) (rs : List Medicine)
    (h : ∀ r ∈ rs, lineOK r) :
    ∃ l, loadMedicines clk (saveMedicines rs) = some l ∧
      l.map Medicine.batchNumber = (rs.map Medicine.batchNumber).reverse ∧
      ((l.map Medicine.batchNumber).Nodup ↔ (rs.map Medicine.batchNumber).Nodup) := by
  have hl := loadMedicines_lines clk rs [] (fun r hr => lineScanOK_of_lineOK (h r hr))
    fscanfMedicine_nil fscanfMedicine_nil
  rw [List.append_nil] at hl
  refine ⟨_, hl, ?_⟩
  have e : (updateAllMedicineStatuses clk rs.reverse).map Medicine.batchNumber =
      (rs.map Medicine.batchNumber).reverse := by
    rw [updateAll_batchNumbers, List.map_reverse]
  rw [e]
  exact ⟨rfl, List.nodup_reverse⟩

/-! ## Claim C15 -/

theorem updateMedicine_absent (clk : Clock) (store : List Medicine) (b : CStr) (q : Int)
    (h : ∀ t ∈ store, t.batchNumber ≠ b) :
    updateMedicine clk store b q = (Report.notFound, store) := by
  unfold updateMedicine
  rw [searchMedicine_eq_none.2 h]

theorem updateMedicine_present (clk : Clock) (store : List Medicine) (b : CStr) (q : Int)
    (h : ∃ t ∈ store, t.batchNumber = b) :
    updateMedicine clk store b q =
      (Report.updated, sortMedicinesByExpiry (setQuantity clk b q store)) := by
  obtain ⟨m, hm⟩ := searchMedicine_isSome.1 h
  unfold updateMedicine
  rw [hm]

/-- C15. Update contract and frame: when no record has batch number `b`, `updateMedicine`
reports `Not found` and returns the store as it was; otherwise the store splits as
`A ++ x :: B` with `x` the first record with batch number `b`, the report is `Updated`, and
the new listing is a permutation of `A ++ x' :: B`, where `x'` is `x` with quantity `q` and
status `deriveStatus` of its expiry date and `q` (batch number, names and dates as in `x`):
every other record is unchanged, none is lost or duplicated, and the count is the same. -/
theorem update_contract :
    (∀ (clk : Clock) (store : List Medicine) (b : CStr) (q : Int),
      (∀ t ∈ store, t.batchNumber ≠ b) →
      updateMedicine clk store b q = (Report.notFound, store)) ∧
    (∀ (clk : Clock) (store : List Medicine) (b : CStr) (q : Int),
      (∃ t ∈ store, t.batchNumber = b) →
      ∃ A x B, store = A ++ x :: B ∧ x.batchNumber = b ∧ (∀ t ∈ A, t.batchNumber ≠ b) ∧
        (updateMedicine clk store b q).1 = Report.updated ∧
        List.Perm (updateMedicine clk store b q).2
          (A ++ { x with quantity := q, status := deriveStatus clk x.expiryDate q } :: B) ∧
        (updateMedicine clk store b q).2.length = store.length) := by
  refine ⟨updateMedicine_absent, ?_⟩
  intro clk store b q h
  obtain ⟨A, x, B, h1, h2, h3⟩ := first_match_split h
  refine ⟨A, x, B, h1, h2, h3, ?_⟩
  rw [updateMedicine_present clk store b q h]
  have hset : setQuantity clk b q store =
      A ++ { x with quantity := q, status := deriveStatus clk x.expiryDate q } :: B := by
    rw [h1, setQuantity_split clk b q A B x h2 h3]
    rfl
  have hp := sort_perm (setQuantity clk b q store)
  refine ⟨rfl, ?_, ?_⟩
  · rw [← hset]; exact hp
  · simp only
    rw [hp.length_eq, hset, h1]
    simp

set_option maxRecDepth 100000 in
/-- Witness for C15: the quantity of `B1` in the store of the scenario is set to 0. -/
theorem update_contract_witness :
    (updateMedicine (sampleClock 0) sampleStore "B1".toList 0).2.length =
      sampleStore.length := by
  obtain ⟨A, x, B, _, _, _, _, _, h⟩ :=
    update_contract.2 (sampleClock 0) sampleStore "B1".toList 0 (by decide)
  exact h

/-! ## Claim C16 -/

theorem bucketOf_deriveStatus (clk : Clock) (d : CStr) (q : Int) :
    (deriveStatus clk d q = EXPIRED ∧ bucketOf (deriveStatus clk d q) = Bucket.expired) ∨
    (deriveStatus clk d q = NEAR_EXPIRY ∧ bucketOf (deriveStatus clk d q) = Bucket.near) ∨
    (deriveStatus clk d q = OUT_OF_STOCK ∧ bucketOf (deriveStatus clk d q) = Bucket.out) ∨
    (deriveStatus clk d q = LOW_STOCK ∧ bucketOf (deriveStatus clk d q) = Bucket.low) ∨
    (deriveStatus clk d q = IN_STOCK ∧ bucketOf (deriveStatus clk d q) = Bucket.instock) := by
  rcases deriveStatus_label clk d q with h | h | h | h | h <;> rw [h] <;> decide

theorem countOne_fold (clk : Clock) : ∀ (l : List Medicine) (st : Stats),
    (updateAllMedicineStatuses clk l).foldl countOne st =
      { total := st.total + l.length,
        expired := st.expired +
          l.countP (fun m => decide (deriveStatus clk m.expiryDate m.quantity = EXPIRED)),
        near := st.near +
          l.countP (fun m => decide (deriveStatus clk m.expiryDate m.quantity = NEAR_EXPIRY)),
        instock := st.instock +
          l.countP (fun m => decide (deriveStatus clk m.expiryDate m.quantity = IN_STOCK)),
        low := st.low +
          l.countP (fun m => decide (deriveStatus clk m.expiryDate m.quantity = LOW_STOCK)),
        out := st.out +
          l.countP
            (fun m => decide (deriveStatus clk m.expiryDate m.quantity = OUT_OF_STOCK)) } := by
  intro l
  induction l with
  | nil => intro st; simp [updateAllMedicineStatuses]
  | cons a l ih =>
    intro st
    have e1 : EXPIRED ≠ NEAR_EXPIRY := by decide
    have e2 : EXPIRED ≠ OUT_OF_STOCK := by decide
    have e3 : EXPIRED ≠ LOW_STOCK := by decide
    have e4 : EXPIRED ≠ IN_STOCK := by decide
    have e5 : NEAR_EXPIRY ≠ OUT_OF_STOCK := by decide
    have e6 : NEAR_EXPIRY ≠ LOW_STOCK := by decide
    have e7 : NEAR_EXPIRY ≠ IN_STOCK := by decide
    have e8 : OUT_OF_STOCK ≠ LOW_STOCK := by decide
    have e9 : OUT_OF_STOCK ≠ IN_STOCK := by decide
    have e10 : LOW_STOCK ≠ IN_STOCK := by decide
    have hstep : (updateAllMedicineStatuses clk (a :: l)).foldl countOne st =
        (updateAllMedicineStatuses clk l).foldl countOne
          (countOne st (updateExpiryAndStockStatus clk a)) := rfl
    rw [hstep, ih]
    have hb := bucketOf_deriveStatus clk a.expiryDate a.quantity
    simp only [countOne, updateExpiryAndStockStatus, List.countP_cons, List.length_cons]
    rcases hb with ⟨h, hb⟩ | ⟨h, hb⟩ | ⟨h, hb⟩ | ⟨h, hb⟩ | ⟨h, hb⟩ <;>
      rw [hb] <;>
      simp [h, e1, e2, e3, e4, e5, e6, e7, e8, e9, e10, e1.symm, e2.symm, e3.symm, e4.symm,
        e5.symm, e6.symm, e7.symm, e8.symm, e9.symm, e10.symm] <;>
      omega

theorem countP_labels (clk : Clock) : ∀ l : List Medicine,
    l.countP (fun m => decide (deriveStatus clk m.expiryDate m.quantity = EXPIRED)) +
    l.countP (fun m => decide (deriveStatus clk m.expiryDate m.quantity = NEAR_EXPIRY)) +
    l.countP (fun m => decide (deriveStatus clk m.expiryDate m.quantity = OUT_OF_STOCK)) +
    l.countP (fun m => decide (deriveStatus clk m.expiryDate m.quantity = LOW_STOCK)) +
    l.countP (fun m => decide (deriveStatus clk m.expiryDate m.quantity = IN_STOCK)) =
      l.length := by
  intro l
  induction l with
  | nil => rfl
  | cons a l ih =>
    have e1 : EXPIRED ≠ NEAR_EXPIRY := by decide
    have e2 : EXPIRED ≠ OUT_OF_STOCK := by decide
    have e3 : EXPIRED ≠ LOW_STOCK := by decide
    have e4 : EXPIRED ≠ IN_STOCK := by decide
    have e5 : NEAR_EXPIRY ≠ OUT_OF_STOCK := by decide
    have e6 : NEAR_EXPIRY ≠ LOW_STOCK := by decide
    have e7 : NEAR_EXPIRY ≠ IN_STOCK := by decide
    have e8 : OUT_OF_STOCK ≠ LOW_STOCK := by decide
    have e9 : OUT_OF_STOCK ≠ IN_STOCK := by decide
    have e10 : LOW_STOCK ≠ IN_STOCK := by decide
    simp only [List.countP_cons, List.length_cons]
    rcases deriveStatus_label clk a.expiryDate a.quantity with h | h | h | h | h <;>
      simp [h, e1, e2, e3, e4, e5, e6, e7, e8, e9, e10, e1.symm, e2.symm, e3.symm, e4.symm,
        e5.symm, e6.symm, e7.symm, e8.symm, e9.symm, e10.symm] <;>
      omega

set_option maxRecDepth 100000 in
/-- C16. Stats counts: `medicineStats` reports a total equal to the number of records and,
for each of the five labels, the number of records whose status derived from expiry date,
quantity and `now` is that label; the five counts add up to the total; the final `else` of
the counting chain is never taken, since every recomputed status is one of the five labels;
and in the scenario (`B1` expiry 2099-01-01 quantity 3, `B2` expiry 2030-05-05 quantity 20,
`now` far before both) the total is 2 with one `LOW STOCK` and one `IN STOCK`. -/
theorem stats_counts :
    (∀ (clk : Clock) (store : List Medicine),
      (medicineStats clk store).total = store.length ∧
      (medicineStats clk store).expired =
        store.countP (fun m => decide (deriveStatus clk m.expiryDate m.quantity = EXPIRED)) ∧
      (medicineStats clk store).near =
        store.countP
          (fun m => decide (deriveStatus clk m.expiryDate m.quantity = NEAR_EXPIRY)) ∧
      (medicineStats clk store).out =
        store.countP
          (fun m => decide (deriveStatus clk m.expiryDate m.quantity = OUT_OF_STOCK)) ∧
      (medicineStats clk store).low =
        store.countP (fun m => decide (deriveStatus clk m.expiryDate m.quantity = LOW_STOCK)) ∧
      (medicineStats clk store).instock =
        store.countP (fun m => decide (deriveStatus clk m.expiryDate m.quantity = IN_STOCK)) ∧
      (medicineStats clk store).expired + (medicineStats clk store).near +
        (medicineStats clk store).out + (medicineStats clk store).low +
        (medicineStats clk store).instock = (medicineStats clk store).total ∧
      ∀ m ∈ updateAllMedicineStatuses clk store, bucketOf m.status ≠ Bucket.unrecognized) ∧
    medicineStats (sampleClock 0) sampleStore =
      { total := 2, expired := 0, near := 0, instock := 1, low := 1, out := 0 } := by
  refine ⟨?_, by decide⟩
  intro clk store
  have h := countOne_fold clk store ⟨0, 0, 0, 0, 0, 0⟩
  have hsum := countP_labels clk store
  unfold medicineStats
  rw [h]
  refine ⟨by simp, by simp, by simp, by simp, by simp, by simp, by simpa using hsum, ?_⟩
  intro m hm
  unfold updateAllMedicineStatuses at hm
  obtain ⟨a, _, rfl⟩ := List.mem_map.1 hm
  rcases bucketOf_deriveStatus clk a.expiryDate a.quantity with
    ⟨_, hb⟩ | ⟨_, hb⟩ | ⟨_, hb⟩ | ⟨_, hb⟩ | ⟨_, hb⟩ <;>
  · simp only [updateExpiryAndStockStatus]
    rw [hb]
    decide


set_option maxRecDepth 100000 in
/-- Witness for C16: the recomputed record `B1` of the scenario does not reach the final
`else` of the counting chain. -/
theorem stats_counts_witness :
    bucketOf (updateExpiryAndStockStatus (sampleClock 0)
      (sampleMed "B1" "2099-01-01" 3)).status ≠ Bucket.unrecognized :=
  (stats_counts.1 (sampleClock 0) sampleStore).2.2.2.2.2.2.2 _ (by decide)

/-! ## Claim C17 -/

theorem loadMedicines_lines_then (clk : Clock) (rs : List Medicine) (rest : CStr)
    (h : ∀ r ∈ rs, lineScanOK r) (hne : rs ≠ []) :
    ∃ l0, loadLoop ((skipSpace rest).length + 1) (skipSpace rest) [] = some l0 ∧
      loadMedicines clk (saveMedicines rs ++ rest) =
        some (updateAllMedicineStatuses clk (l0 ++ rs.reverse)) := by
  obtain ⟨l0, hl0⟩ := loadLoop_total ((skipSpace rest).length + 1) (skipSpace rest) []
    (by omega)
  refine ⟨l0, hl0, ?_⟩
  have hlen := length_le_saveMedicines rs
  have hsk := skipSpace_length rest
  have e : (saveMedicines rs ++ rest).length + 1 =
      rs.length + (((skipSpace rest).length + 1) +
        ((saveMedicines rs).length - rs.length + (rest.length - (skipSpace rest).length))) := by
    simp only [List.length_append]; omega
  unfold loadMedicines
  rw [e, ← skipSpace_saveMedicines rs rest h hne, loadLoop_lines rest rs [] _ h,
    loadLoop_fuel _ _ _ _ (by omega)]
  have := loadLoop_acc _ _ [] rs.reverse l0 hl0
  simp only [List.nil_append] at this
  simp only [List.append_nil]
  rw [this]
  rfl

theorem update_sameButStatus (clk : Clock) {a b : Medicine} (h : sameButStatus a b) :
    updateExpiryAndStockStatus clk a = updateExpiryAndStockStatus clk b := by
  obtain ⟨h1, h2, h3, h4, h5, h6, h7⟩ := h
  cases a; cases b
  simp only at h1 h2 h3 h4 h5 h6 h7
  subst h1 h2 h3 h4 h5 h6 h7
  rfl

theorem updateAll_sameButStatus (clk : Clock) {l1 l2 : List Medicine}
    (h : List.Forall₂ sameButStatus l1 l2) :
    updateAllMedicineStatuses clk l1 = updateAllMedicineStatuses clk l2 := by
  induction h with
  | nil => rfl
  | cons hab _ ih =>
    unfold updateAllMedicineStatuses at ih ⊢
    simp only [List.map_cons]
    rw [update_sameButStatus clk hab, ih]

theorem updateAll_append (clk : Clock) (l1 l2 : List Medicine) :
    updateAllMedicineStatuses clk (l1 ++ l2) =
      updateAllMedicineStatuses clk l1 ++ updateAllMedicineStatuses clk l2 := by
  simp [updateAllMedicineStatuses]

theorem updateAll_reverse (clk : Clock) (l : List Medicine) :
    updateAllMedicineStatuses clk l.reverse = (updateAllMedicineStatuses clk l).reverse := by
  simp [updateAllMedicineStatuses]

theorem loadMedicines_total (clk : Clock) (file : CStr) :
    ∃ l, loadMedicines clk file = some l := by
  obtain ⟨l, hl⟩ := loadLoop_total (file.length + 1) file [] (by omega)
  exact ⟨updateAllMedicineStatuses clk l, by unfold loadMedicines; rw [hl]; rfl⟩

theorem loadMedicines_status (clk : Clock) (file : CStr) (l : List Medicine)
    (h : loadMedicines clk file = some l) :
    ∀ m ∈ l, m.status = deriveStatus clk m.expiryDate m.quantity := by
  unfold loadMedicines at h
  cases hl : loadLoop (file.length + 1) file [] with
  | none => rw [hl] at h; cases h
  | some l0 =>
    rw [hl] at h
    simp only [Option.map_some', Option.some.injEq] at h
    subst h
    intro m hm
    unfold updateAllMedicineStatuses at hm
    obtain ⟨a, _, rfl⟩ := List.mem_map.1 hm
    rfl

/-- C17. Persisted status is never trusted: two files that consist of the same lines except
for the contents of the status fields (each status non-empty, at most 23 characters, without
newline; the other fields well-formed), followed by the same further input, are loaded into
identical stores; `loadMedicines` returns on every file, and every record of the store it
yields has the status `deriveStatus` of its own expiry date and quantity at `now`. -/
theorem persisted_status_not_trusted :
    (∀ (clk : Clock) (rs1 rs2 : List Medicine) (rest : CStr),
      (∀ r ∈ rs1, lineScanOK r) → (∀ r ∈ rs2, lineScanOK r) →
      List.Forall₂ sameButStatus rs1 rs2 →
      loadMedicines clk (saveMedicines rs1 ++ rest) =
        loadMedicines clk (saveMedicines rs2 ++ rest)) ∧
    (∀ (clk : Clock) (file : CStr),
      ∃ l, loadMedicines clk file = some l ∧
        ∀ m ∈ l, m.status = deriveStatus clk m.expiryDate m.quantity) := by
  constructor
  · intro clk rs1 rs2 rest h1 h2 hs
    by_cases hne : rs1 = []
    · subst hne
      cases hs
      rfl
    · have hne2 : rs2 ≠ [] := by
        intro e
        subst e
        cases hs
        exact hne rfl
      obtain ⟨l1, hl1, e1⟩ := loadMedicines_lines_then clk rs1 rest h1 hne
      obtain ⟨l2, hl2, e2⟩ := loadMedicines_lines_then clk rs2 rest h2 hne2
      rw [hl1] at hl2
      simp only [Option.some.injEq] at hl2
      subst hl2
      rw [e1, e2, updateAll_append, updateAll_append, updateAll_reverse, updateAll_reverse,
        updateAll_sameButStatus clk hs]
  · intro clk file
    obtain ⟨l, hl⟩ := loadMedicines_total clk file
    exact ⟨l, hl, loadMedicines_status clk file l hl⟩

set_option maxRecDepth 100000 in
/-- Witness for C17: one line with the status `IN STOCK` against the same line with the
status `stale|value`, each followed by a second line. -/
theorem persisted_status_not_trusted_witness :
    loadMedicines (sampleClock 0)
        (saveMedicines [sampleMed "B1" "2099-01-01" 3] ++
          saveMedicines [sampleMed "B2" "2030-05-05" 20]) =
      loadMedicines (sampleClock 0)
        (saveMedicines [{ sampleMed "B1" "2099-01-01" 3 with status := "stale|value".toList }] ++
          saveMedicines [sampleMed "B2" "2030-05-05" 20]) :=
  persisted_status_not_trusted.1 (sampleClock 0) [sampleMed "B1" "2099-01-01" 3]
    [{ sampleMed "B1" "2099-01-01" 3 with status := "stale|value".toList }]
    (saveMedicines [sampleMed "B2" "2030-05-05" 20]) (by decide) (by decide)
    (List.Forall₂.cons (by decide) List.Forall₂.nil)

/-! ## Claim C18 -/

set_option maxRecDepth 100000 in
/-- C18, counterexample. The records `E` (expiry `2024-1-1`) and `X` (expiry `2024-01-01`)
compare equal, and `E` comes before `X` in the input; the date `2024-0x` of `Y` does not
parse, so `Y` is compared by `strcmp`, and the re-sort puts `X` in front of `Y` and `E`:
in the output `X` comes before `E`. -/
theorem sort_not_stable_on_mixed_dates :
    compareDate "2024-1-1".toList "2024-01-01".toList = 0 ∧
    mixedDates.map Medicine.batchNumber = ["Y".toList, "E".toList, "X".toList] ∧
    (sortMedicinesByExpiry mixedDates).map Medicine.batchNumber =
      ["X".toList, "Y".toList, "E".toList] := by
  decide

theorem keySorted_insertAfter (x : Medicine) (hx : smallDate x.expiryDate) :
    ∀ L : List Medicine, smallDates L → keySorted L → keySorted (insertAfter x L) := by
  intro L
  induction L with
  | nil => intro _ _; exact List.pairwise_singleton _ _
  | cons a L ih =>
    intro hg hs
    have ha : smallDate a.expiryDate := hg a (by simp)
    rw [insertAfter_cons]
    by_cases hc : compareDate a.expiryDate x.expiryDate ≤ 0
    · rw [if_pos hc]
      have hax := (compareDate_le_iff ha hx).1 hc
      refine List.Pairwise.cons ?_ (ih (fun e he => hg e (by simp [he]))
        (List.Pairwise.of_cons hs))
      intro e he
      rcases List.mem_cons.1 ((insertAfter_perm x L).subset he) with rfl | he
      · exact hax
      · exact List.rel_of_pairwise_cons hs he
    · rw [if_neg hc]
      have hax := (not_congr (compareDate_le_iff ha hx)).1 hc
      refine List.Pairwise.cons ?_ hs
      intro e he
      rcases List.mem_cons.1 he with rfl | he
      · omega
      · have := List.rel_of_pairwise_cons hs he
        omega

theorem smallDates_insert (L : List Medicine) (x : Medicine) (hx : smallDate x.expiryDate)
    (hL : smallDates L) : smallDates (sortedInsertByExpiry L x) := by
  intro e he
  rcases List.mem_cons.1 ((sortedInsert_perm L x).subset he) with rfl | he
  · exact hx
  · exact hL e he

theorem filter_insertAfter (d : CStr) (hd : smallDate d) (x : Medicine)
    (hx : smallDate x.expiryDate) : ∀ L : List Medicine, smallDates L → keySorted L →
    (insertAfter x L).filter (fun m => decide (compareDate m.expiryDate d = 0)) =
      L.filter (fun m => decide (compareDate m.expiryDate d = 0)) ++
      [x].filter (fun m => decide (compareDate m.expiryDate d = 0)) := by
  intro L
  induction L with
  | nil => intro _ _; rfl
  | cons a L ih =>
    intro hg hs
    have ha : smallDate a.expiryDate := hg a (by simp)
    rw [insertAfter_cons]
    by_cases hc : compareDate a.expiryDate x.expiryDate ≤ 0
    · rw [if_pos hc, List.filter_cons, List.filter_cons,
        ih (fun e he => hg e (by simp [he])) (List.Pairwise.of_cons hs)]
      split_ifs <;> simp
    · rw [if_neg hc]
      have hax := (not_congr (compareDate_le_iff ha hx)).1 hc
      by_cases hxd : compareDate x.expiryDate d = 0
      · have hkx := (compareDate_eq_iff hx hd).1 hxd
        have hnone : (a :: L).filter (fun m => decide (compareDate m.expiryDate d = 0)) = [] := by
          rw [List.filter_eq_nil_iff]
          intro e he
          have hes := hg e he
          have hke : dateKey a.expiryDate ≤ dateKey e.expiryDate := by
            rcases List.mem_cons.1 he with rfl | he
            · exact le_refl _
            · exact List.rel_of_pairwise_cons hs he
          simp only [decide_eq_true_eq]
          rw [compareDate_eq_iff hes hd]
          omega
        rw [List.filter_cons, hnone]
        simp [hxd]
      · rw [List.filter_cons]
        simp [hxd]

theorem foldl_insert_stable (d : CStr) (hd : smallDate d) : ∀ (l acc : List Medicine),
    smallDates acc → smallDates l → keySorted acc →
    keySorted (l.foldl sortedInsertByExpiry acc) ∧
    (l.foldl sortedInsertByExpiry acc).filter
        (fun m => decide (compareDate m.expiryDate d = 0)) =
      acc.filter (fun m => decide (compareDate m.expiryDate d = 0)) ++
      l.filter (fun m => decide (compareDate m.expiryDate d = 0)) := by
  intro l
  induction l with
  | nil => intro acc _ _ hs; exact ⟨hs, by simp⟩
  | cons x l ih =>
    intro acc hacc hl hs
    have hx : smallDate x.expiryDate := hl x (by simp)
    have hl2 : smallDates l := fun e he => hl e (by simp [he])
    have hins : sortedInsertByExpiry acc x = insertAfter x acc :=
      sortedInsert_eq_insertAfter acc x hx hacc
    have hs2 : keySorted (sortedInsertByExpiry acc x) := by
      rw [hins]; exact keySorted_insertAfter x hx acc hacc hs
    obtain ⟨h1, h2⟩ := ih (sortedInsertByExpiry acc x) (smallDates_insert acc x hx hacc) hl2 hs2
    simp only [List.foldl_cons]
    refine ⟨h1, ?_⟩
    rw [h2, hins, filter_insertAfter d hd x hx acc hacc hs]
    simp only [List.filter_cons, List.filter_nil, List.append_assoc]
    split_ifs <;> simp

theorem sort_keySorted (l : List Medicine) (h : smallDates l) :
    keySorted (sortMedicinesByExpiry l) :=
  (foldl_insert_stable "2024-01-01".toList (smallDate_of_isYMD (by decide)) l []
    (fun _ he => absurd he (List.not_mem_nil _)) h List.Pairwise.nil).1

/-- C18, amended. For every list of records (any expiry strings) `sortMedicinesByExpiry`
returns a permutation of its input: the same records with the same multiplicities, none lost
or duplicated, the same length.  When all expiry dates have the form `YYYY-MM-DD` the re-sort
is also stable: for every such date, the records whose expiry compares equal to it appear in
the output in the same order as in the input.  On dates of mixed forms it need not be
stable. -/
theorem sort_is_permutation_and_stable_on_dates :
    (∀ l : List Medicine, List.Perm (sortMedicinesByExpiry l) l ∧
      (sortMedicinesByExpiry l).length = l.length ∧
      ∀ m : Medicine, (sortMedicinesByExpiry l).count m = l.count m) ∧
    (∀ (l : List Medicine) (d : CStr), allYMD l → isYMD d = true →
      (sortMedicinesByExpiry l).filter (fun m => decide (compareDate m.expiryDate d = 0)) =
        l.filter (fun m => decide (compareDate m.expiryDate d = 0))) := by
  constructor
  · intro l
    have hp := sort_perm l
    exact ⟨hp, hp.length_eq, fun m => hp.count_eq m⟩
  · intro l d hl hd
    have := (foldl_insert_stable d (smallDate_of_isYMD hd) l []
      (fun _ he => absurd he (List.not_mem_nil _)) (smallDates_of_allYMD hl)
      List.Pairwise.nil).2
    simpa [sortMedicinesByExpiry] using this

set_option maxRecDepth 100000 in
/-- Witness for C18: three records, two of them with the expiry date 2030-05-05. -/
theorem sort_stable_witness :
    (sortMedicinesByExpiry [sampleMed "B1" "2099-01-01" 3, sampleMed "B2" "2030-05-05" 20,
        sampleMed "B5" "2030-05-05" 1]).filter
        (fun m => decide (compareDate m.expiryDate "2030-05-05".toList = 0)) =
      [sampleMed "B2" "2030-05-05" 20, sampleMed "B5" "2030-05-05" 1] :=
  (sort_is_permutation_and_stable_on_dates.2
    [sampleMed "B1" "2099-01-01" 3, sampleMed "B2" "2030-05-05" 20,
      sampleMed "B5" "2030-05-05" 1] "2030-05-05".toList (by decide) (by decide)).trans
    (by decide)

/-! ## Claim C19 -/

theorem setQuantity_batchNumbers (clk : Clock) (b : CStr) (q : Int) : ∀ l : List Medicine,
    (setQuantity clk b q l).map Medicine.batchNumber = l.map Medicine.batchNumber := by
  intro l
  induction l with
  | nil => rfl
  | cons a l ih =>
    unfold setQuantity
    split_ifs
    · simp [updateExpiryAndStockStatus]
    · simp [ih]

/-- C19. Re-sorting a sorted store is the identity: a list of records with expiry dates of
the form `YYYY-MM-DD` that is non-decreasing under `compareDate` is returned unchanged by
`sortMedicinesByExpiry`; hence on lists with such dates the re-sort is idempotent, and a
successful `updateMedicine` on a sorted store leaves every record at its position (the
result is the store with the one record changed in place). -/
theorem resort_of_sorted_is_identity :
    (∀ l : List Medicine, allYMD l → nonDecreasing l = true → sortMedicinesByExpiry l = l) ∧
    (∀ l : List Medicine, allYMD l →
      sortMedicinesByExpiry (sortMedicinesByExpiry l) = sortMedicinesByExpiry l) ∧
    (∀ (clk : Clock) (store : List Medicine) (b : CStr) (q : Int), allYMD store →
      nonDecreasing store = true → (∃ t ∈ store, t.batchNumber = b) →
      updateMedicine clk store b q = (Report.updated, setQuantity clk b q store) ∧
      (updateMedicine clk store b q).2.map Medicine.batchNumber =
        store.map Medicine.batchNumber) := by
  refine ⟨?_, ?_, ?_⟩
  · intro l hl hs
    have hsd := smallDates_of_allYMD hl
    exact sort_of_sorted l hsd (keySorted_of_nonDecreasing l hsd hs)
  · intro l hl
    have hsd := smallDates_of_allYMD hl
    have hsd2 : smallDates (sortMedicinesByExpiry l) :=
      fun e he => hsd e ((sort_perm l).subset he)
    exact sort_of_sorted _ hsd2 (sort_keySorted l hsd)
  · intro clk store b q hl hs h
    obtain ⟨m, hm⟩ := searchMedicine_isSome.1 h
    have e := updateMedicine_found_sorted clk store b q m hl hs hm
    refine ⟨e, ?_⟩
    rw [e]
    exact setQuantity_batchNumbers clk b q store

set_option maxRecDepth 100000 in
/-- Witness for C19: the store of the scenario is returned unchanged by the re-sort. -/
theorem resort_of_sorted_is_identity_witness :
    sortMedicinesByExpiry sampleStore = sampleStore :=
  resort_of_sorted_is_identity.1 sampleStore (by decide) (by decide)


end MedicineTracker
